import Mathlib

/-!
# Termination workflows of `mu` (package `workflows`)

Shallow embedding of `workflows/environment_terminate.go` and
`workflows/service_undeploy.go`.

* A Go `error` value is modelled by its text; the result of an `Executor`
  (`func() error`) is `Option GoError`, `none` standing for `nil`.
* The collaborators (`common.StackLister`, `common.StackDeleter`,
  `common.StackWaiter`, `common.RolesetDeleter`) are arbitrary deterministic
  objects: the answer to a call is a function of the calls made so far and of
  the arguments of the call.  An `Executor` therefore takes the call log at its
  start and returns its result together with the call log at its end.
* Logging (`log.Noticef`, `log.Infof`, `log.Debugf`, `log.Info`) has no effect on
  the control flow and is left out.
* Go strings are modelled by Lean strings (sequences of characters rather than
  of bytes); the only string test of the code, the ASCII suffix `_COMPLETE`, gives
  the same answer on both for UTF-8 text.
* The slice returned by `ListStacks` holds no `nil` pointer.
* `common.CreateStackName` is not part of the sources at hand: every step takes
  the naming function as its first argument.
-/

namespace Mu

/-! ## Data model -/

/-- The stack types `common.StackType...` used by the two workflows. -/
inductive StackType where
  | StackTypeVpc
  | StackTypeTarget
  | StackTypeEnv
  | StackTypeLoadBalancer
  | StackTypeConsul
  | StackTypeService
  | StackTypeDatabase
  deriving DecidableEq, Repr

/-- The fields of `common.Stack` read by the workflows.  `Tags` is the Go map
`map[string]string`, kept as an association list read by `Stack.tag`. -/
structure Stack where
  Name : String
  Status : String
  StatusReason : String
  Tags : List (String × String)
  deriving DecidableEq, Repr

/-- Go map indexing `stack.Tags[key]`: the value stored under `key`, and the zero
value `""` when the key is missing. -/
def Stack.tag (stack : Stack) (key : String) : String :=
  (stack.Tags.lookup key).getD ""

/-- A Go `error`, modelled by the text its `Error()` method returns. -/
structure GoError where
  text : String
  deriving DecidableEq, Repr

/-- One call made on a collaborator. -/
inductive Call where
  | ListStacks (stackType : StackType)
  | DeleteStack (stackName : String)
  | AwaitFinalStatus (stackName : String)
  | DeleteServiceRoleset (environmentName : String) (serviceName : String)
  | DeleteEnvironmentRoleset (environmentName : String)
  deriving DecidableEq, Repr

/-- `common.StackLister`: `ListStacks(stackType) ([]*Stack, error)`; the first
argument is the log of the calls made before this one. -/
abbrev StackLister := List Call → StackType → Except GoError (List Stack)

/-- `common.StackDeleter`: `DeleteStack(stackName) error`. -/
abbrev StackDeleter := List Call → String → Option GoError

/-- `common.StackWaiter`: `AwaitFinalStatus(stackName) *Stack`, `none` for `nil`. -/
abbrev StackWaiter := List Call → String → Option Stack

/-- The two methods of `common.RolesetDeleter` called by the workflows. -/
structure RolesetDeleter where
  DeleteServiceRoleset : List Call → String → String → Option GoError
  DeleteEnvironmentRoleset : List Call → String → Option GoError

/-- `common.CreateStackName(namespace, stackType, names...)`. -/
abbrev StackNamer := String → StackType → List String → String

/-- `type Executor func() error`, with the call log threaded through. -/
abbrev Executor := List Call → Option GoError × List Call

/-- The stack manager of `common.Context`: one object serving as lister,
deleter and waiter. -/
structure StackManager where
  ListStacks : StackLister
  DeleteStack : StackDeleter
  AwaitFinalStatus : StackWaiter

/-- The parts of `common.Context` read by the workflow builders
(`Namespace` is `ctx.Config.Namespace`). -/
structure Context where
  Namespace : String
  StackManager : StackManager
  RolesetManager : RolesetDeleter

/-! ## Library functions -/

/-- Go `strings.HasSuffix(s, suffix)`:
`len(s) >= len(suffix) && s[len(s)-len(suffix):] == suffix`. -/
def HasSuffix (s suffix : String) : Bool :=
  decide (suffix.data.length ≤ s.data.length) &&
    decide (s.data.drop (s.data.length - suffix.data.length) = suffix.data)

/-- The error built by `fmt.Errorf("Ended in failed status %s %s", status, reason)`. -/
def Errorf (status reason : String) : GoError :=
  ⟨"Ended in failed status " ++ status ++ " " ++ reason⟩

/-- The text `t` contains the text `s` as a contiguous piece. -/
def containsText (t s : String) : Prop := s.data <:+: t.data

instance (t s : String) : Decidable (containsText t s) := by
  unfold containsText; infer_instance

/-! ## Pipeline executor -/

/-- Modelled from the spec: `newPipelineExecutor` is not among the sources at
hand.  Section 4.3: a strict sequential runner over an ordered list of steps;
steps run one at a time in the order given, the first step to fail aborts all
remaining steps and its error is returned to the caller unchanged. -/
def newPipelineExecutor : List Executor → Executor
  | [], h => (none, h)
  | executor :: rest, h =>
    match executor h with
    | (some err, h1) => (some err, h1)
    | (none, h1) => newPipelineExecutor rest h1

/-! ## `environment_terminate.go` -/

/-- First loop of `environmentServiceTerminator` (lines 32-42): the result is the
error returned from inside the loop, or `none` when the loop runs to its end. -/
def serviceDeleteLoop (environmentName : String) (stackDeleter : StackDeleter)
    (rolesetDeleter : RolesetDeleter) : List Stack → Executor
  | [], h => (none, h)
  | stack :: stacks_, h =>
    if stack.tag "environment" ≠ environmentName then
      serviceDeleteLoop environmentName stackDeleter rolesetDeleter stacks_ h
    else
      match stackDeleter h stack.Name with
      | some err => (some err, h ++ [Call.DeleteStack stack.Name])
      | none =>
        let h1 := h ++ [Call.DeleteStack stack.Name]
        let _discarded := rolesetDeleter.DeleteServiceRoleset h1 environmentName (stack.tag "service")
        serviceDeleteLoop environmentName stackDeleter rolesetDeleter stacks_
          (h1 ++ [Call.DeleteServiceRoleset environmentName (stack.tag "service")])

/-- First loop of `environmentDbTerminator` (lines 61-69). -/
def dbDeleteLoop (environmentName : String) (stackDeleter : StackDeleter) :
    List Stack → Executor
  | [], h => (none, h)
  | stack :: stacks_, h =>
    if stack.tag "environment" ≠ environmentName then
      dbDeleteLoop environmentName stackDeleter stacks_ h
    else
      match stackDeleter h stack.Name with
      | some err => (some err, h ++ [Call.DeleteStack stack.Name])
      | none => dbDeleteLoop environmentName stackDeleter stacks_ (h ++ [Call.DeleteStack stack.Name])

/-- Second loop of both filtered steps (lines 43-49 and 70-76): the stack
returned by `AwaitFinalStatus` is dropped. -/
def awaitLoop (environmentName : String) (stackWaiter : StackWaiter) :
    List Stack → List Call → List Call
  | [], h => h
  | stack :: stacks_, h =>
    if stack.tag "environment" ≠ environmentName then
      awaitLoop environmentName stackWaiter stacks_ h
    else
      let _discarded := stackWaiter h stack.Name
      awaitLoop environmentName stackWaiter stacks_ (h ++ [Call.AwaitFinalStatus stack.Name])

/-- The Service step (lines 25-53). -/
def environmentServiceTerminator (environmentName : String) (stackLister : StackLister)
    (stackDeleter : StackDeleter) (stackWaiter : StackWaiter)
    (rolesetDeleter : RolesetDeleter) : Executor := fun h =>
  match stackLister h StackType.StackTypeService with
  | Except.error err => (some err, h ++ [Call.ListStacks StackType.StackTypeService])
  | Except.ok stacks_ =>
    match serviceDeleteLoop environmentName stackDeleter rolesetDeleter stacks_
        (h ++ [Call.ListStacks StackType.StackTypeService]) with
    | (some err, h1) => (some err, h1)
    | (none, h1) => (none, awaitLoop environmentName stackWaiter stacks_ h1)

/-- The Database step (lines 54-80). -/
def environmentDbTerminator (environmentName : String) (stackLister : StackLister)
    (stackDeleter : StackDeleter) (stackWaiter : StackWaiter) : Executor := fun h =>
  match stackLister h StackType.StackTypeDatabase with
  | Except.error err => (some err, h ++ [Call.ListStacks StackType.StackTypeDatabase])
  | Except.ok stacks_ =>
    match dbDeleteLoop environmentName stackDeleter stacks_
        (h ++ [Call.ListStacks StackType.StackTypeDatabase]) with
    | (some err, h1) => (some err, h1)
    | (none, h1) => (none, awaitLoop environmentName stackWaiter stacks_ h1)

/-- The ServiceDiscovery step (lines 81-97). -/
def environmentConsulTerminator (CreateStackName : StackNamer) (namespace_ : String)
    (environmentName : String) (stackDeleter : StackDeleter) (stackWaiter : StackWaiter) :
    Executor := fun h =>
  let envStackName := CreateStackName namespace_ StackType.StackTypeConsul [environmentName]
  match stackDeleter h envStackName with
  | some err => (some err, h ++ [Call.DeleteStack envStackName])
  | none =>
    let h1 := h ++ [Call.DeleteStack envStackName]
    match stackWaiter h1 envStackName with
    | some stack =>
      if !HasSuffix stack.Status "_COMPLETE" then
        (some (Errorf stack.Status stack.StatusReason), h1 ++ [Call.AwaitFinalStatus envStackName])
      else (none, h1 ++ [Call.AwaitFinalStatus envStackName])
    | none => (none, h1 ++ [Call.AwaitFinalStatus envStackName])

/-- The ContainerPlatform step (lines 98-114). -/
def environmentEcsTerminator (CreateStackName : StackNamer) (namespace_ : String)
    (environmentName : String) (stackDeleter : StackDeleter) (stackWaiter : StackWaiter) :
    Executor := fun h =>
  let envStackName := CreateStackName namespace_ StackType.StackTypeEnv [environmentName]
  match stackDeleter h envStackName with
  | some err => (some err, h ++ [Call.DeleteStack envStackName])
  | none =>
    let h1 := h ++ [Call.DeleteStack envStackName]
    match stackWaiter h1 envStackName with
    | some stack =>
      if !HasSuffix stack.Status "_COMPLETE" then
        (some (Errorf stack.Status stack.StatusReason), h1 ++ [Call.AwaitFinalStatus envStackName])
      else (none, h1 ++ [Call.AwaitFinalStatus envStackName])
    | none => (none, h1 ++ [Call.AwaitFinalStatus envStackName])

/-- The RoleSet step (lines 116-124). -/
def environmentRolesetTerminator (rolesetDeleter : RolesetDeleter) (environmentName : String) :
    Executor := fun h =>
  match rolesetDeleter.DeleteEnvironmentRoleset h environmentName with
  | some err => (some err, h ++ [Call.DeleteEnvironmentRoleset environmentName])
  | none => (none, h ++ [Call.DeleteEnvironmentRoleset environmentName])

/-- The LoadBalancer step (lines 126-142). -/
def environmentElbTerminator (CreateStackName : StackNamer) (namespace_ : String)
    (environmentName : String) (stackDeleter : StackDeleter) (stackWaiter : StackWaiter) :
    Executor := fun h =>
  let envStackName := CreateStackName namespace_ StackType.StackTypeLoadBalancer [environmentName]
  match stackDeleter h envStackName with
  | some err => (some err, h ++ [Call.DeleteStack envStackName])
  | none =>
    let h1 := h ++ [Call.DeleteStack envStackName]
    match stackWaiter h1 envStackName with
    | some stack =>
      if !HasSuffix stack.Status "_COMPLETE" then
        (some (Errorf stack.Status stack.StatusReason), h1 ++ [Call.AwaitFinalStatus envStackName])
      else (none, h1 ++ [Call.AwaitFinalStatus envStackName])
    | none => (none, h1 ++ [Call.AwaitFinalStatus envStackName])

/-- Second half of `environmentVpcTerminator` (lines 157-168), reached when the
check of the network stack passed. -/
def vpcTargetPhase (CreateStackName : StackNamer) (namespace_ : String)
    (environmentName : String) (stackDeleter : StackDeleter) (stackWaiter : StackWaiter) :
    Executor := fun h =>
  let targetStackName := CreateStackName namespace_ StackType.StackTypeTarget [environmentName]
  let _ignored := stackDeleter h targetStackName
  let h1 := h ++ [Call.DeleteStack targetStackName]
  match stackWaiter h1 targetStackName with
  | some stack =>
    if !HasSuffix stack.Status "_COMPLETE" then
      (some (Errorf stack.Status stack.StatusReason), h1 ++ [Call.AwaitFinalStatus targetStackName])
    else (none, h1 ++ [Call.AwaitFinalStatus targetStackName])
  | none => (none, h1 ++ [Call.AwaitFinalStatus targetStackName])

/-- The Network step (lines 143-170): the error of `DeleteStack` is only logged. -/
def environmentVpcTerminator (CreateStackName : StackNamer) (namespace_ : String)
    (environmentName : String) (stackDeleter : StackDeleter) (stackWaiter : StackWaiter) :
    Executor := fun h =>
  let vpcStackName := CreateStackName namespace_ StackType.StackTypeVpc [environmentName]
  let _ignored := stackDeleter h vpcStackName
  let h1 := h ++ [Call.DeleteStack vpcStackName]
  match stackWaiter h1 vpcStackName with
  | some stack =>
    if !HasSuffix stack.Status "_COMPLETE" then
      (some (Errorf stack.Status stack.StatusReason), h1 ++ [Call.AwaitFinalStatus vpcStackName])
    else
      vpcTargetPhase CreateStackName namespace_ environmentName stackDeleter stackWaiter
        (h1 ++ [Call.AwaitFinalStatus vpcStackName])
  | none =>
    vpcTargetPhase CreateStackName namespace_ environmentName stackDeleter stackWaiter
      (h1 ++ [Call.AwaitFinalStatus vpcStackName])

/-- The seven steps handed to `newPipelineExecutor` by `NewEnvironmentTerminator`. -/
def environmentTerminatorSteps (CreateStackName : StackNamer) (ctx : Context)
    (environmentName : String) : List Executor :=
  [ environmentServiceTerminator environmentName ctx.StackManager.ListStacks
      ctx.StackManager.DeleteStack ctx.StackManager.AwaitFinalStatus ctx.RolesetManager,
    environmentDbTerminator environmentName ctx.StackManager.ListStacks
      ctx.StackManager.DeleteStack ctx.StackManager.AwaitFinalStatus,
    environmentEcsTerminator CreateStackName ctx.Namespace environmentName
      ctx.StackManager.DeleteStack ctx.StackManager.AwaitFinalStatus,
    environmentConsulTerminator CreateStackName ctx.Namespace environmentName
      ctx.StackManager.DeleteStack ctx.StackManager.AwaitFinalStatus,
    environmentRolesetTerminator ctx.RolesetManager environmentName,
    environmentElbTerminator CreateStackName ctx.Namespace environmentName
      ctx.StackManager.DeleteStack ctx.StackManager.AwaitFinalStatus,
    environmentVpcTerminator CreateStackName ctx.Namespace environmentName
      ctx.StackManager.DeleteStack ctx.StackManager.AwaitFinalStatus ]

/-- The workflow for terminating an environment (lines 10-23). -/
def NewEnvironmentTerminator (CreateStackName : StackNamer) (ctx : Context)
    (environmentName : String) : Executor :=
  newPipelineExecutor (environmentTerminatorSteps CreateStackName ctx environmentName)

/-! ## `service_undeploy.go` -/

/-- The method `serviceUndeployer` of `serviceWorkflow`; `serviceName` is the
field `workflow.serviceName` of its receiver. -/
def serviceUndeployer (CreateStackName : StackNamer) (serviceName : String)
    (namespace_ : String) (environmentName : String) (stackDeleter : StackDeleter)
    (stackWaiter : StackWaiter) : Executor := fun h =>
  let svcStackName :=
    CreateStackName namespace_ StackType.StackTypeService [serviceName, environmentName]
  match stackWaiter h svcStackName with
  | some _ =>
    let h1 := h ++ [Call.AwaitFinalStatus svcStackName]
    match stackDeleter h1 svcStackName with
    | some err => (some err, h1 ++ [Call.DeleteStack svcStackName])
    | none =>
      let h2 := h1 ++ [Call.DeleteStack svcStackName]
      match stackWaiter h2 svcStackName with
      | some svcStack =>
        if !HasSuffix svcStack.Status "_COMPLETE" then
          (some (Errorf svcStack.Status svcStack.StatusReason),
            h2 ++ [Call.AwaitFinalStatus svcStackName])
        else (none, h2 ++ [Call.AwaitFinalStatus svcStackName])
      | none => (none, h2 ++ [Call.AwaitFinalStatus svcStackName])
  | none => (none, h ++ [Call.AwaitFinalStatus svcStackName])

/-! ## Vocabulary of the statements -/

/-- The listed stacks selected by the test `stack.Tags["environment"] != environmentName`
of the filtered steps, in listing order. -/
def matched (environmentName : String) (listing : List Stack) : List Stack :=
  listing.filter (fun stack => decide (stack.tag "environment" = environmentName))

/-- The names passed to `DeleteStack` in a call log, in call order. -/
def deleteCalls : List Call → List String
  | [] => []
  | Call.DeleteStack stackName :: t => stackName :: deleteCalls t
  | _ :: t => deleteCalls t

/-- The names passed to `AwaitFinalStatus` in a call log, in call order. -/
def awaitCalls : List Call → List String
  | [] => []
  | Call.AwaitFinalStatus stackName :: t => stackName :: awaitCalls t
  | _ :: t => awaitCalls t

/-- The calls of the first loop of the Service step on stacks that are all
matched and all deleted without error. -/
def serviceCalls (environmentName : String) : List Stack → List Call
  | [] => []
  | stack :: rest =>
    Call.DeleteStack stack.Name ::
      Call.DeleteServiceRoleset environmentName (stack.tag "service") ::
        serviceCalls environmentName rest

/-- The calls of the first loop of the Database step on stacks that are all
matched and all deleted without error. -/
def dbCalls (l : List Stack) : List Call :=
  l.map (fun stack => Call.DeleteStack stack.Name)

/-- The calls of the second loop of a filtered step on matched stacks. -/
def waitCalls (l : List Stack) : List Call :=
  l.map (fun stack => Call.AwaitFinalStatus stack.Name)

/-- The calls a run added to the call log `h` it started from, `t` being the
log at its end. -/
def emitted (h t : List Call) : List Call := t.drop h.length

/-- The first step of the pipeline of `NewEnvironmentTerminator`. -/
abbrev serviceStep (ctx : Context) (environmentName : String) : Executor :=
  environmentServiceTerminator environmentName ctx.StackManager.ListStacks
    ctx.StackManager.DeleteStack ctx.StackManager.AwaitFinalStatus ctx.RolesetManager

/-- The second step of the pipeline of `NewEnvironmentTerminator`. -/
abbrev dbStep (ctx : Context) (environmentName : String) : Executor :=
  environmentDbTerminator environmentName ctx.StackManager.ListStacks
    ctx.StackManager.DeleteStack ctx.StackManager.AwaitFinalStatus

/-- The calls issued by the Service step and, when it returned no error, by the
Database step that follows it in the pipeline of `NewEnvironmentTerminator`
started from the call log `h`. -/
def consumerCalls (ctx : Context) (environmentName : String) (h : List Call) : List Call :=
  let service := environmentServiceTerminator environmentName ctx.StackManager.ListStacks
    ctx.StackManager.DeleteStack ctx.StackManager.AwaitFinalStatus ctx.RolesetManager h
  match service.1 with
  | some _ => emitted h service.2
  | none =>
    emitted h service.2 ++ emitted service.2
      (environmentDbTerminator environmentName ctx.StackManager.ListStacks
        ctx.StackManager.DeleteStack ctx.StackManager.AwaitFinalStatus service.2).2

/-- The names computed by the ContainerPlatform, LoadBalancer and Network steps
(network stack and target stack). -/
def providerNames (CreateStackName : StackNamer) (namespace_ environmentName : String) :
    List String :=
  [CreateStackName namespace_ StackType.StackTypeEnv [environmentName],
   CreateStackName namespace_ StackType.StackTypeLoadBalancer [environmentName],
   CreateStackName namespace_ StackType.StackTypeVpc [environmentName],
   CreateStackName namespace_ StackType.StackTypeTarget [environmentName]]

/-- A call that one of the five last steps of the environment pipeline can
issue: `DeleteStack` or `AwaitFinalStatus` on one of the five computed names, or
`DeleteEnvironmentRoleset`. -/
def isScopedStepCall (CreateStackName : StackNamer) (namespace_ environmentName : String)
    (c : Call) : Prop :=
  c = Call.DeleteEnvironmentRoleset environmentName ∨
  ∃ n ∈ CreateStackName namespace_ StackType.StackTypeConsul [environmentName] ::
      providerNames CreateStackName namespace_ environmentName,
    c = Call.DeleteStack n ∨ c = Call.AwaitFinalStatus n

/-- Every run of the executor only adds calls to the log, all of them in `P`. -/
def Emits (P : Call → Prop) (executor : Executor) : Prop :=
  ∀ h, ∃ c, (executor h).2 = h ++ c ∧ ∀ x ∈ c, P x

/-- The five steps that follow the Service and Database steps in the list of
`NewEnvironmentTerminator`. -/
def providerSteps (CreateStackName : StackNamer) (ctx : Context) (environmentName : String) :
    List Executor :=
  (environmentTerminatorSteps CreateStackName ctx environmentName).drop 2

/-- The environment names passed to `DeleteEnvironmentRoleset` in a call log. -/
def envRolesetCalls : List Call → List String
  | [] => []
  | Call.DeleteEnvironmentRoleset environmentName :: t => environmentName :: envRolesetCalls t
  | _ :: t => envRolesetCalls t

/-- The `DeleteStack` and `DeleteServiceRoleset` calls of a call log, in call order. -/
def teardownCalls (t : List Call) : List Call :=
  t.filter (fun c => match c with
    | Call.DeleteStack _ => true
    | Call.DeleteServiceRoleset _ _ => true
    | _ => false)

/-- Among `calls`, the calls of a run started from the log `h`, there is a
`DeleteStack` call on `stackName` that returned the error `e`: `p` holds the
calls of the run made before it, so the deleter answered it from `h ++ p`. -/
def DeleteFailed (stackDeleter : StackDeleter) (h calls : List Call) (stackName : String)
    (e : GoError) : Prop :=
  ∃ p, p ++ [Call.DeleteStack stackName] <+: calls ∧ stackDeleter (h ++ p) stackName = some e

/-- The status text ends with the suffix `_COMPLETE`. -/
def EndsInComplete (status : String) : Prop := ∃ p : String, status = p ++ "_COMPLETE"

/-- The check made by every scoped step on the answer of `AwaitFinalStatus`:
`if stack != nil && !strings.HasSuffix(stack.Status, "_COMPLETE")` the step
returns the `fmt.Errorf` error, otherwise it goes on. -/
def checkStatus (answer : Option Stack) : Option GoError :=
  match answer with
  | some stack =>
    if !HasSuffix stack.Status "_COMPLETE" then some (Errorf stack.Status stack.StatusReason)
    else none
  | none => none

/-- The phase that waited for `stack` ended with `result`: success (`none`) when
the status ends in `_COMPLETE`, the error `Ended in failed status <Status>
<StatusReason>` for any other status. -/
def Classified (stack : Stack) (result : Option GoError) : Prop :=
  (EndsInComplete stack.Status → result = none) ∧
  (¬ EndsInComplete stack.Status → result = some (Errorf stack.Status stack.StatusReason))

/-! ## Concrete collaborators and stacks used as test inputs -/

/-- Modelled from the spec: `common.CreateStackName` is not among the sources at
hand.  Section 4.1: `name = join(namespace, typeTag, identifyingParts...)`; the
scenario of section 8 writes the names `<namespace>-<type>-dev`. -/
def dashName : StackNamer := fun namespace_ stackType names =>
  let typeTag := match stackType with
    | StackType.StackTypeVpc => "vpc"
    | StackType.StackTypeTarget => "target"
    | StackType.StackTypeEnv => "environment"
    | StackType.StackTypeLoadBalancer => "loadbalancer"
    | StackType.StackTypeConsul => "consul"
    | StackType.StackTypeService => "service"
    | StackType.StackTypeDatabase => "database"
  "-".intercalate (namespace_ :: typeTag :: names)

/-- The stack of service `web` in environment `dev`. -/
def webStack : Stack :=
  ⟨"mu-service-web-dev", "CREATE_COMPLETE", "", [("environment", "dev"), ("service", "web")]⟩

/-- The stack of service `api` in environment `dev`. -/
def apiStack : Stack :=
  ⟨"mu-service-api-dev", "CREATE_COMPLETE", "", [("environment", "dev"), ("service", "api")]⟩

/-- The stack of service `web` in environment `prod`. -/
def prodStack : Stack :=
  ⟨"mu-service-web-prod", "CREATE_COMPLETE", "", [("environment", "prod"), ("service", "web")]⟩

/-- The database stack of environment `dev`. -/
def devDbStack : Stack :=
  ⟨"mu-database-web-dev", "CREATE_COMPLETE", "", [("environment", "dev")]⟩

/-- A stack without any tag. -/
def orphanStack : Stack := ⟨"mu-service-orphan", "CREATE_COMPLETE", "", []⟩

/-- A lister that always answers with the same listing, whatever the type. -/
def constLister (listing : List Stack) : StackLister := fun _ _ => Except.ok listing

/-- The lister of the scenario of section 8: two services and one database of
environment `dev`. -/
def devLister : StackLister := fun _ stackType =>
  match stackType with
  | StackType.StackTypeService => Except.ok [webStack, apiStack]
  | StackType.StackTypeDatabase => Except.ok [devDbStack]
  | _ => Except.ok []

/-- A lister that finds nothing. -/
def emptyLister : StackLister := fun _ _ => Except.ok []

/-- A deleter whose every call succeeds. -/
def calmDeleter : StackDeleter := fun _ _ => none

/-- A deleter whose every call fails. -/
def deniedDeleter : StackDeleter := fun _ _ => some ⟨"AccessDenied"⟩

/-- A deleter that fails on the stack of service `api` and succeeds on every
other stack. -/
def apiThrottledDeleter : StackDeleter := fun _ stackName =>
  if stackName = "mu-service-api-dev" then some ⟨"Throttling"⟩ else none

/-- A waiter that reports every stack as absent. -/
def goneWaiter : StackWaiter := fun _ _ => none

/-- A waiter that reports every stack in the given status. -/
def statusWaiter (status reason : String) : StackWaiter :=
  fun _ stackName => some ⟨stackName, status, reason, []⟩

/-- A waiter that always answers with the same stack. -/
def fixedWaiter (stack : Stack) : StackWaiter := fun _ _ => some stack

/-- The stack reported by the waiter in the failure scenario of section 8. -/
def failedStack : Stack :=
  ⟨"mu-environment-dev", "DELETE_FAILED", "dependent resource in use", []⟩

/-- A stack reported as deleted. -/
def deletedStack : Stack := ⟨"mu-environment-dev", "DELETE_COMPLETE", "", []⟩

/-- The waiter of the failure scenario of section 8: the ContainerPlatform stack
ends in `DELETE_FAILED`, every other stack in `DELETE_COMPLETE`. -/
def ecsFailedWaiter : StackWaiter := fun _ stackName =>
  if stackName = "mu-environment-dev" then some failedStack
  else some ⟨stackName, "DELETE_COMPLETE", "", []⟩

/-- A lister with memory: a stack is listed as long as no `DeleteStack` call has
been made on its name. -/
def remainingLister : StackLister := fun log stackType =>
  match stackType with
  | StackType.StackTypeService =>
    Except.ok ([webStack, apiStack].filter
      (fun stack => decide (Call.DeleteStack stack.Name ∉ log)))
  | StackType.StackTypeDatabase =>
    Except.ok ([devDbStack].filter (fun stack => decide (Call.DeleteStack stack.Name ∉ log)))
  | _ => Except.ok []

/-- A waiter with memory: a stack is absent once `DeleteStack` has been called on
its name, and stands in `CREATE_COMPLETE` before. -/
def remainingWaiter : StackWaiter := fun log stackName =>
  if Call.DeleteStack stackName ∈ log then none
  else some ⟨stackName, "CREATE_COMPLETE", "", []⟩

/-- A roleset manager whose every call fails. -/
def failingRoles : RolesetDeleter :=
  ⟨fun _ _ _ => some ⟨"RoleInUse"⟩, fun _ _ => some ⟨"RoleInUse"⟩⟩

/-- A roleset manager whose every call succeeds. -/
def quietRoles : RolesetDeleter := ⟨fun _ _ _ => none, fun _ _ => none⟩

/-- The context of the failure scenario of section 8. -/
def ecsFailedContext : Context :=
  ⟨"mu", ⟨devLister, calmDeleter, ecsFailedWaiter⟩, quietRoles⟩

/-- A context whose stack manager remembers what has been deleted. -/
def remainingContext : Context :=
  ⟨"mu", ⟨remainingLister, calmDeleter, remainingWaiter⟩, quietRoles⟩

/-- A context in which nothing is listed and every stack is absent, but every
`DeleteStack` call fails. -/
def deniedContext : Context :=
  ⟨"mu", ⟨emptyLister, deniedDeleter, goneWaiter⟩, quietRoles⟩

/-- The call log of a run of the environment pipeline for `dev` in the scenario
of section 8. -/
def devRunLog : List Call :=
  [Call.ListStacks StackType.StackTypeService,
   Call.DeleteStack "mu-service-web-dev", Call.DeleteServiceRoleset "dev" "web",
   Call.DeleteStack "mu-service-api-dev", Call.DeleteServiceRoleset "dev" "api",
   Call.AwaitFinalStatus "mu-service-web-dev", Call.AwaitFinalStatus "mu-service-api-dev",
   Call.ListStacks StackType.StackTypeDatabase,
   Call.DeleteStack "mu-database-web-dev", Call.AwaitFinalStatus "mu-database-web-dev",
   Call.DeleteStack "mu-environment-dev", Call.AwaitFinalStatus "mu-environment-dev",
   Call.DeleteStack "mu-consul-dev", Call.AwaitFinalStatus "mu-consul-dev",
   Call.DeleteEnvironmentRoleset "dev",
   Call.DeleteStack "mu-loadbalancer-dev", Call.AwaitFinalStatus "mu-loadbalancer-dev",
   Call.DeleteStack "mu-vpc-dev", Call.AwaitFinalStatus "mu-vpc-dev",
   Call.DeleteStack "mu-target-dev", Call.AwaitFinalStatus "mu-target-dev"]

/-- The context of the scenario of section 8: every call succeeds and every wait
reports `DELETE_COMPLETE`. -/
def devContext : Context :=
  ⟨"mu", ⟨devLister, calmDeleter, statusWaiter "DELETE_COMPLETE" ""⟩, quietRoles⟩

/-- A stack tagged as a service of `dev` that bears the name computed for the
ContainerPlatform stack of `dev`. -/
def platformNamedStack : Stack :=
  ⟨"mu-environment-dev", "CREATE_COMPLETE", "",
    [("environment", "dev"), ("service", "platform")]⟩

/-- A context whose Service listing holds a stack bearing the ContainerPlatform
name, followed by the stack of service `web`; every call succeeds and every wait
finds the stack gone. -/
def collidingContext : Context :=
  ⟨"mu",
    ⟨fun _ stackType =>
        match stackType with
        | StackType.StackTypeService => Except.ok [platformNamedStack, webStack]
        | _ => Except.ok [],
      calmDeleter, goneWaiter⟩,
    quietRoles⟩

/-! ## Basic facts -/

theorem emitted_append (h c : List Call) : emitted h (h ++ c) = c := by
  simp [emitted]

theorem emitted_append_append (h a b : List Call) : emitted (h ++ a) (h ++ (a ++ b)) = b := by
  rw [← List.append_assoc]; exact emitted_append _ _

theorem matched_cons_of_eq (E : String) (s : Stack) (l : List Stack)
    (hs : s.tag "environment" = E) : matched E (s :: l) = s :: matched E l := by
  simp [matched, hs]

theorem matched_cons_of_ne (E : String) (s : Stack) (l : List Stack)
    (hs : s.tag "environment" ≠ E) : matched E (s :: l) = matched E l := by
  simp [matched, hs]

theorem mem_matched (E : String) (s : Stack) (l : List Stack) :
    s ∈ matched E l ↔ s ∈ l ∧ s.tag "environment" = E := by
  simp [matched]

theorem deleteCalls_append (a b : List Call) :
    deleteCalls (a ++ b) = deleteCalls a ++ deleteCalls b := by
  induction a with
  | nil => rfl
  | cons c a ih => cases c <;> simp [deleteCalls, ih]

theorem awaitCalls_append (a b : List Call) :
    awaitCalls (a ++ b) = awaitCalls a ++ awaitCalls b := by
  induction a with
  | nil => rfl
  | cons c a ih => cases c <;> simp [awaitCalls, ih]

theorem deleteCalls_serviceCalls (E : String) (l : List Stack) :
    deleteCalls (serviceCalls E l) = l.map Stack.Name := by
  induction l with
  | nil => rfl
  | cons s l ih => simp [serviceCalls, deleteCalls, ih]

theorem awaitCalls_serviceCalls (E : String) (l : List Stack) :
    awaitCalls (serviceCalls E l) = [] := by
  induction l with
  | nil => rfl
  | cons s l ih => simp [serviceCalls, awaitCalls, ih]

theorem deleteCalls_dbCalls (l : List Stack) : deleteCalls (dbCalls l) = l.map Stack.Name := by
  induction l with
  | nil => rfl
  | cons s l ih =>
    simp only [dbCalls, List.map_cons, deleteCalls] at ih ⊢
    rw [ih]

theorem awaitCalls_dbCalls (l : List Stack) : awaitCalls (dbCalls l) = [] := by
  induction l with
  | nil => rfl
  | cons s l ih =>
    simp only [dbCalls, List.map_cons, awaitCalls] at ih ⊢
    exact ih

theorem deleteCalls_waitCalls (l : List Stack) : deleteCalls (waitCalls l) = [] := by
  induction l with
  | nil => rfl
  | cons s l ih =>
    simp only [waitCalls, List.map_cons, deleteCalls] at ih ⊢
    exact ih

theorem awaitCalls_waitCalls (l : List Stack) : awaitCalls (waitCalls l) = l.map Stack.Name := by
  induction l with
  | nil => rfl
  | cons s l ih =>
    simp only [waitCalls, List.map_cons, awaitCalls] at ih ⊢
    rw [ih]

theorem mem_deleteCalls (n : String) (t : List Call) :
    n ∈ deleteCalls t ↔ Call.DeleteStack n ∈ t := by
  induction t with
  | nil => simp [deleteCalls]
  | cons c t ih => cases c <;> simp [deleteCalls, ih]

theorem mem_awaitCalls (n : String) (t : List Call) :
    n ∈ awaitCalls t ↔ Call.AwaitFinalStatus n ∈ t := by
  induction t with
  | nil => simp [awaitCalls]
  | cons c t ih => cases c <;> simp [awaitCalls, ih]

/-- The second loop of a filtered step adds one `AwaitFinalStatus` call per
matched stack, whatever the waiter answers. -/
theorem awaitLoop_eq (E : String) (w : StackWaiter) (l : List Stack) (h : List Call) :
    awaitLoop E w l h = h ++ waitCalls (matched E l) := by
  induction l generalizing h with
  | nil => simp [awaitLoop, matched, waitCalls]
  | cons s l ih =>
    by_cases hs : s.tag "environment" = E
    · simp [awaitLoop, hs, ih, matched_cons_of_eq, waitCalls]
    · simp [awaitLoop, hs, ih, matched_cons_of_ne]

/-- The first loop of the Service step when every `DeleteStack` call succeeds. -/
theorem serviceDeleteLoop_ok (E : String) (del : StackDeleter) (rs : RolesetDeleter)
    (hdel : ∀ h n, del h n = none) (l : List Stack) (h : List Call) :
    serviceDeleteLoop E del rs l h = (none, h ++ serviceCalls E (matched E l)) := by
  induction l generalizing h with
  | nil => simp [serviceDeleteLoop, matched, serviceCalls]
  | cons s l ih =>
    by_cases hs : s.tag "environment" = E
    · simp [serviceDeleteLoop, hs, hdel, ih, matched_cons_of_eq, serviceCalls]
    · simp [serviceDeleteLoop, hs, ih, matched_cons_of_ne]

/-- The first loop of the Database step when every `DeleteStack` call succeeds. -/
theorem dbDeleteLoop_ok (E : String) (del : StackDeleter)
    (hdel : ∀ h n, del h n = none) (l : List Stack) (h : List Call) :
    dbDeleteLoop E del l h = (none, h ++ dbCalls (matched E l)) := by
  induction l generalizing h with
  | nil => simp [dbDeleteLoop, matched, dbCalls]
  | cons s l ih =>
    by_cases hs : s.tag "environment" = E
    · simp [dbDeleteLoop, hs, hdel, ih, matched_cons_of_eq, dbCalls]
    · simp [dbDeleteLoop, hs, ih, matched_cons_of_ne]

/-- Result and call log of the Service step when the lister and every
`DeleteStack` call succeed. -/
theorem environmentServiceTerminator_ok (E : String) (lister : StackLister)
    (del : StackDeleter) (w : StackWaiter) (rs : RolesetDeleter) (h : List Call)
    (listing : List Stack) (hlist : lister h StackType.StackTypeService = Except.ok listing)
    (hdel : ∀ h n, del h n = none) :
    environmentServiceTerminator E lister del w rs h =
      (none, h ++ (Call.ListStacks StackType.StackTypeService ::
        (serviceCalls E (matched E listing) ++ waitCalls (matched E listing)))) := by
  simp [environmentServiceTerminator, hlist, serviceDeleteLoop_ok E del rs hdel, awaitLoop_eq]

/-- Result and call log of the Database step when the lister and every
`DeleteStack` call succeed. -/
theorem environmentDbTerminator_ok (E : String) (lister : StackLister)
    (del : StackDeleter) (w : StackWaiter) (h : List Call)
    (listing : List Stack) (hlist : lister h StackType.StackTypeDatabase = Except.ok listing)
    (hdel : ∀ h n, del h n = none) :
    environmentDbTerminator E lister del w h =
      (none, h ++ (Call.ListStacks StackType.StackTypeDatabase ::
        (dbCalls (matched E listing) ++ waitCalls (matched E listing)))) := by
  simp [environmentDbTerminator, hlist, dbDeleteLoop_ok E del hdel, awaitLoop_eq]

/-! ## C1: tag filter of the filtered steps -/

/-- C1 (as amended). When the lister and every `DeleteStack` call succeed, the
Service step and the Database step call `DeleteStack` exactly on the listed
stacks whose `Tags["environment"]` (read as a Go map: `""` when the key is
missing) equals the environment name, once each and in listing order, and
`AwaitFinalStatus` on the same stacks.  So a matched stack is passed to both
calls, and the name of a listed stack whose tag differs from the environment
name (in particular a stack without the tag, when the environment name is not
empty) is passed to neither, unless a matched stack bears the same name. -/
theorem C1_tag_filter (E : String) (lister : StackLister) (del : StackDeleter)
    (w : StackWaiter) (rs : RolesetDeleter) (h : List Call)
    (services databases : List Stack)
    (hsvc : lister h StackType.StackTypeService = Except.ok services)
    (hdb : lister h StackType.StackTypeDatabase = Except.ok databases)
    (hdel : ∀ h1 n, del h1 n = none) :
    (deleteCalls (emitted h (environmentServiceTerminator E lister del w rs h).2)
        = (matched E services).map Stack.Name ∧
      awaitCalls (emitted h (environmentServiceTerminator E lister del w rs h).2)
        = (matched E services).map Stack.Name ∧
      deleteCalls (emitted h (environmentDbTerminator E lister del w h).2)
        = (matched E databases).map Stack.Name ∧
      awaitCalls (emitted h (environmentDbTerminator E lister del w h).2)
        = (matched E databases).map Stack.Name) ∧
    (∀ S ∈ services,
      (S.tag "environment" = E →
        Call.DeleteStack S.Name ∈ emitted h (environmentServiceTerminator E lister del w rs h).2 ∧
        Call.AwaitFinalStatus S.Name ∈
          emitted h (environmentServiceTerminator E lister del w rs h).2) ∧
      ((S.tag "environment" ≠ E ∨ (S.Tags.lookup "environment" = none ∧ E ≠ "")) →
        (∀ S1 ∈ services, S1.tag "environment" = E → S1.Name ≠ S.Name) →
        Call.DeleteStack S.Name ∉ emitted h (environmentServiceTerminator E lister del w rs h).2 ∧
        Call.AwaitFinalStatus S.Name ∉
          emitted h (environmentServiceTerminator E lister del w rs h).2)) ∧
    (∀ S ∈ databases,
      (S.tag "environment" = E →
        Call.DeleteStack S.Name ∈ emitted h (environmentDbTerminator E lister del w h).2 ∧
        Call.AwaitFinalStatus S.Name ∈ emitted h (environmentDbTerminator E lister del w h).2) ∧
      ((S.tag "environment" ≠ E ∨ (S.Tags.lookup "environment" = none ∧ E ≠ "")) →
        (∀ S1 ∈ databases, S1.tag "environment" = E → S1.Name ≠ S.Name) →
        Call.DeleteStack S.Name ∉ emitted h (environmentDbTerminator E lister del w h).2 ∧
        Call.AwaitFinalStatus S.Name ∉ emitted h (environmentDbTerminator E lister del w h).2)) := by
  have key : ∀ (l : List Stack) (c : List Call),
      deleteCalls c = (matched E l).map Stack.Name →
      awaitCalls c = (matched E l).map Stack.Name →
      ∀ S ∈ l,
        (S.tag "environment" = E → Call.DeleteStack S.Name ∈ c ∧ Call.AwaitFinalStatus S.Name ∈ c) ∧
        ((S.tag "environment" ≠ E ∨ (S.Tags.lookup "environment" = none ∧ E ≠ "")) →
          (∀ S1 ∈ l, S1.tag "environment" = E → S1.Name ≠ S.Name) →
          Call.DeleteStack S.Name ∉ c ∧ Call.AwaitFinalStatus S.Name ∉ c) := by
    intro l c hd ha S hS
    have hmemD : ∀ n, Call.DeleteStack n ∈ c ↔ n ∈ (matched E l).map Stack.Name := by
      intro n; rw [← hd, mem_deleteCalls]
    have hmemA : ∀ n, Call.AwaitFinalStatus n ∈ c ↔ n ∈ (matched E l).map Stack.Name := by
      intro n; rw [← ha, mem_awaitCalls]
    refine ⟨fun hE => ?_, fun _ hun => ?_⟩
    · have : S.Name ∈ (matched E l).map Stack.Name :=
        List.mem_map.2 ⟨S, (mem_matched E S l).2 ⟨hS, hE⟩, rfl⟩
      exact ⟨(hmemD _).2 this, (hmemA _).2 this⟩
    · have hno : S.Name ∉ (matched E l).map Stack.Name := by
        intro hin
        obtain ⟨S1, hS1, hname⟩ := List.mem_map.1 hin
        have h1 := (mem_matched E S1 l).1 hS1
        exact hun S1 h1.1 h1.2 hname
      exact ⟨fun hc => hno ((hmemD _).1 hc), fun hc => hno ((hmemA _).1 hc)⟩
  have e1 := environmentServiceTerminator_ok E lister del w rs h services hsvc hdel
  have e2 := environmentDbTerminator_ok E lister del w h databases hdb hdel
  have d1 : deleteCalls (emitted h (environmentServiceTerminator E lister del w rs h).2)
      = (matched E services).map Stack.Name := by
    rw [e1]
    simp [emitted_append, deleteCalls, deleteCalls_append, deleteCalls_serviceCalls,
      deleteCalls_waitCalls]
  have a1 : awaitCalls (emitted h (environmentServiceTerminator E lister del w rs h).2)
      = (matched E services).map Stack.Name := by
    rw [e1]
    simp [emitted_append, awaitCalls, awaitCalls_append, awaitCalls_serviceCalls,
      awaitCalls_waitCalls]
  have d2 : deleteCalls (emitted h (environmentDbTerminator E lister del w h).2)
      = (matched E databases).map Stack.Name := by
    rw [e2]
    simp [emitted_append, deleteCalls, deleteCalls_append, deleteCalls_dbCalls,
      deleteCalls_waitCalls]
  have a2 : awaitCalls (emitted h (environmentDbTerminator E lister del w h).2)
      = (matched E databases).map Stack.Name := by
    rw [e2]
    simp [emitted_append, awaitCalls, awaitCalls_append, awaitCalls_dbCalls,
      awaitCalls_waitCalls]
  exact ⟨⟨d1, a1, d2, a2⟩, key services _ d1 a1, key databases _ d2 a2⟩

/-- Witness of C1 (as amended): environment `dev` against a listing holding two
`dev` stacks, one `prod` stack and one stack without tags. -/
theorem C1_tag_filter_witness :
    deleteCalls (emitted [] (environmentServiceTerminator "dev"
        (constLister [webStack, prodStack, orphanStack, apiStack]) calmDeleter goneWaiter
        quietRoles []).2) = ["mu-service-web-dev", "mu-service-api-dev"] ∧
    Call.DeleteStack "mu-service-orphan" ∉ emitted [] (environmentServiceTerminator "dev"
        (constLister [webStack, prodStack, orphanStack, apiStack]) calmDeleter goneWaiter
        quietRoles []).2 := by
  have hall := C1_tag_filter "dev" (constLister [webStack, prodStack, orphanStack, apiStack])
    calmDeleter goneWaiter quietRoles [] [webStack, prodStack, orphanStack, apiStack]
    [webStack, prodStack, orphanStack, apiStack] rfl rfl (fun _ _ => rfl)
  refine ⟨hall.1.1, ?_⟩
  exact ((hall.2.1 orphanStack (by decide)).2 (Or.inl (by decide)) (by decide)).1

/-- Counterexample to C1 as stated: with the empty environment name, a listed
stack that has no `environment` tag at all is matched (its tag reads as `""`):
both filtered steps pass it to `DeleteStack` and to `AwaitFinalStatus`. -/
theorem C1_counterexample :
    orphanStack ∈ [orphanStack] ∧
    orphanStack.Tags.lookup "environment" = none ∧
    (∀ h n, calmDeleter h n = none) ∧
    environmentServiceTerminator "" (constLister [orphanStack]) calmDeleter goneWaiter
        quietRoles [] =
      (none, [Call.ListStacks StackType.StackTypeService, Call.DeleteStack orphanStack.Name,
        Call.DeleteServiceRoleset "" "", Call.AwaitFinalStatus orphanStack.Name]) ∧
    environmentDbTerminator "" (constLister [orphanStack]) calmDeleter goneWaiter [] =
      (none, [Call.ListStacks StackType.StackTypeDatabase, Call.DeleteStack orphanStack.Name,
        Call.AwaitFinalStatus orphanStack.Name]) :=
  ⟨by decide, by decide, fun _ _ => rfl, by decide, by decide⟩

/-! ## C2: order of the environment pipeline -/

theorem serviceDeleteLoop_extends (E : String) (del : StackDeleter) (rs : RolesetDeleter)
    (l : List Stack) (h : List Call) :
    ∃ c, (serviceDeleteLoop E del rs l h).2 = h ++ c := by
  induction l generalizing h with
  | nil => exact ⟨[], by simp [serviceDeleteLoop]⟩
  | cons s l ih =>
    by_cases hs : s.tag "environment" = E
    · cases hd : del h s.Name with
      | some e => exact ⟨[Call.DeleteStack s.Name], by simp [serviceDeleteLoop, hs, hd]⟩
      | none =>
        obtain ⟨c, hc⟩ := ih (h ++ [Call.DeleteStack s.Name] ++
          [Call.DeleteServiceRoleset E (s.tag "service")])
        refine ⟨Call.DeleteStack s.Name :: Call.DeleteServiceRoleset E (s.tag "service") :: c, ?_⟩
        simp only [serviceDeleteLoop, hs, hd, ne_eq, not_true_eq_false, if_false]
        rw [hc]; simp
    · obtain ⟨c, hc⟩ := ih h
      exact ⟨c, by simp [serviceDeleteLoop, hs, hc]⟩

theorem dbDeleteLoop_extends (E : String) (del : StackDeleter)
    (l : List Stack) (h : List Call) :
    ∃ c, (dbDeleteLoop E del l h).2 = h ++ c := by
  induction l generalizing h with
  | nil => exact ⟨[], by simp [dbDeleteLoop]⟩
  | cons s l ih =>
    by_cases hs : s.tag "environment" = E
    · cases hd : del h s.Name with
      | some e => exact ⟨[Call.DeleteStack s.Name], by simp [dbDeleteLoop, hs, hd]⟩
      | none =>
        obtain ⟨c, hc⟩ := ih (h ++ [Call.DeleteStack s.Name])
        refine ⟨Call.DeleteStack s.Name :: c, ?_⟩
        simp only [dbDeleteLoop, hs, hd, ne_eq, not_true_eq_false, if_false]
        rw [hc]; simp
    · obtain ⟨c, hc⟩ := ih h
      exact ⟨c, by simp [dbDeleteLoop, hs, hc]⟩

theorem environmentServiceTerminator_extends (E : String) (lister : StackLister)
    (del : StackDeleter) (w : StackWaiter) (rs : RolesetDeleter) (h : List Call) :
    ∃ c, (environmentServiceTerminator E lister del w rs h).2 = h ++ c := by
  unfold environmentServiceTerminator
  cases lister h StackType.StackTypeService with
  | error e => exact ⟨[Call.ListStacks StackType.StackTypeService], rfl⟩
  | ok l =>
    obtain ⟨c, hc⟩ := serviceDeleteLoop_extends E del rs l
      (h ++ [Call.ListStacks StackType.StackTypeService])
    rcases hr : serviceDeleteLoop E del rs l
      (h ++ [Call.ListStacks StackType.StackTypeService]) with ⟨r, t⟩
    rw [hr] at hc
    simp only at hc
    cases r with
    | some e => exact ⟨Call.ListStacks StackType.StackTypeService :: c, by simp only [hr]; simp [hc]⟩
    | none =>
      exact ⟨Call.ListStacks StackType.StackTypeService :: (c ++ waitCalls (matched E l)),
        by simp only [hr]; simp [hc, awaitLoop_eq]⟩

theorem environmentDbTerminator_extends (E : String) (lister : StackLister)
    (del : StackDeleter) (w : StackWaiter) (h : List Call) :
    ∃ c, (environmentDbTerminator E lister del w h).2 = h ++ c := by
  unfold environmentDbTerminator
  cases lister h StackType.StackTypeDatabase with
  | error e => exact ⟨[Call.ListStacks StackType.StackTypeDatabase], rfl⟩
  | ok l =>
    obtain ⟨c, hc⟩ := dbDeleteLoop_extends E del l
      (h ++ [Call.ListStacks StackType.StackTypeDatabase])
    rcases hr : dbDeleteLoop E del l
      (h ++ [Call.ListStacks StackType.StackTypeDatabase]) with ⟨r, t⟩
    rw [hr] at hc
    simp only at hc
    cases r with
    | some e => exact ⟨Call.ListStacks StackType.StackTypeDatabase :: c, by simp only [hr]; simp [hc]⟩
    | none =>
      exact ⟨Call.ListStacks StackType.StackTypeDatabase :: (c ++ waitCalls (matched E l)),
        by simp only [hr]; simp [hc, awaitLoop_eq]⟩

theorem newPipelineExecutor_emits (P : Call → Prop) (l : List Executor)
    (hl : ∀ ex ∈ l, Emits P ex) : Emits P (newPipelineExecutor l) := by
  induction l with
  | nil => intro h; exact ⟨[], by simp [newPipelineExecutor]⟩
  | cons ex l ih =>
    intro h
    obtain ⟨c, hc, hP⟩ := hl ex (List.mem_cons_self _ _) h
    rcases hr : ex h with ⟨r, t⟩
    rw [hr] at hc
    simp only at hc
    cases r with
    | some e =>
      refine ⟨c, ?_, hP⟩
      simp only [newPipelineExecutor, hr, hc]
    | none =>
      obtain ⟨c2, hc2, hP2⟩ := ih (fun ex1 h1 => hl ex1 (List.mem_cons_of_mem _ h1)) t
      refine ⟨c ++ c2, ?_, ?_⟩
      · subst hc
        simp only [newPipelineExecutor, hr, hc2, List.append_assoc]
      · intro x hx
        rcases List.mem_append.1 hx with hx | hx
        · exact hP x hx
        · exact hP2 x hx

theorem environmentEcsTerminator_emits (N : StackNamer) (ns E : String) (del : StackDeleter)
    (w : StackWaiter) : Emits (isScopedStepCall N ns E) (environmentEcsTerminator N ns E del w) := by
  intro h
  unfold environmentEcsTerminator
  simp only []
  repeat' split
  all_goals first
    | exact ⟨_, rfl, by simp [isScopedStepCall, providerNames]⟩
    | exact ⟨_, List.append_assoc _ _ _, by simp [isScopedStepCall, providerNames]⟩

theorem environmentConsulTerminator_emits (N : StackNamer) (ns E : String) (del : StackDeleter)
    (w : StackWaiter) :
    Emits (isScopedStepCall N ns E) (environmentConsulTerminator N ns E del w) := by
  intro h
  unfold environmentConsulTerminator
  simp only []
  repeat' split
  all_goals first
    | exact ⟨_, rfl, by simp [isScopedStepCall, providerNames]⟩
    | exact ⟨_, List.append_assoc _ _ _, by simp [isScopedStepCall, providerNames]⟩

theorem environmentElbTerminator_emits (N : StackNamer) (ns E : String) (del : StackDeleter)
    (w : StackWaiter) : Emits (isScopedStepCall N ns E) (environmentElbTerminator N ns E del w) := by
  intro h
  unfold environmentElbTerminator
  simp only []
  repeat' split
  all_goals first
    | exact ⟨_, rfl, by simp [isScopedStepCall, providerNames]⟩
    | exact ⟨_, List.append_assoc _ _ _, by simp [isScopedStepCall, providerNames]⟩

theorem environmentRolesetTerminator_emits (N : StackNamer) (ns E : String)
    (rs : RolesetDeleter) :
    Emits (isScopedStepCall N ns E) (environmentRolesetTerminator rs E) := by
  intro h
  unfold environmentRolesetTerminator
  split <;> exact ⟨_, rfl, by simp [isScopedStepCall]⟩

theorem vpcTargetPhase_emits (N : StackNamer) (ns E : String) (del : StackDeleter)
    (w : StackWaiter) : Emits (isScopedStepCall N ns E) (vpcTargetPhase N ns E del w) := by
  intro h
  unfold vpcTargetPhase
  simp only []
  repeat' split
  all_goals first
    | exact ⟨_, rfl, by simp [isScopedStepCall, providerNames]⟩
    | exact ⟨_, List.append_assoc _ _ _, by simp [isScopedStepCall, providerNames]⟩

theorem environmentVpcTerminator_emits (N : StackNamer) (ns E : String) (del : StackDeleter)
    (w : StackWaiter) : Emits (isScopedStepCall N ns E) (environmentVpcTerminator N ns E del w) := by
  intro h
  have key : ∀ h1 : List Call,
      h1 = h ++ [Call.DeleteStack (N ns StackType.StackTypeVpc [E])] ++
        [Call.AwaitFinalStatus (N ns StackType.StackTypeVpc [E])] →
      ∃ c, (vpcTargetPhase N ns E del w h1).2 = h ++ c ∧ ∀ x ∈ c, isScopedStepCall N ns E x := by
    intro h1 hh1
    obtain ⟨c, hc, hP⟩ := vpcTargetPhase_emits N ns E del w h1
    refine ⟨[Call.DeleteStack (N ns StackType.StackTypeVpc [E])] ++
      [Call.AwaitFinalStatus (N ns StackType.StackTypeVpc [E])] ++ c, ?_, ?_⟩
    · rw [hc, hh1]; simp
    · intro x hx
      rcases List.mem_append.1 hx with hx | hx
      · simp only [List.mem_append, List.mem_singleton] at hx
        rcases hx with rfl | rfl <;> simp [isScopedStepCall, providerNames]
      · exact hP x hx
  unfold environmentVpcTerminator
  simp only []
  repeat' split
  all_goals first
    | exact ⟨_, List.append_assoc _ _ _, by simp [isScopedStepCall, providerNames]⟩
    | exact key _ rfl

/-- In a log `cons ++ prov`, a call that does not occur in `cons` has all of
`cons` before it. -/
theorem prefix_of_split (cons prov a b : List Call) (x : Call) (hno : x ∉ cons)
    (heq : cons ++ prov = a ++ x :: b) : cons <+: a := by
  rcases List.append_eq_append_iff.1 heq with ⟨a1, ha, _⟩ | ⟨c1, hc, hx⟩
  · exact ⟨a1, ha.symm⟩
  · cases c1 with
    | nil => simp at hc; exact hc ▸ List.prefix_refl _
    | cons y c1 =>
      simp only [List.cons_append, List.cons.injEq] at hx
      exact absurd (by rw [hc, hx.1]; simp) hno

/-- The environment pipeline unfolded along its first two steps. -/
theorem NewEnvironmentTerminator_log (N : StackNamer) (ctx : Context) (E : String)
    (h : List Call) :
    ∃ providers : List Call,
      (NewEnvironmentTerminator N ctx E h).2 = h ++ consumerCalls ctx E h ++ providers ∧
      (∀ c ∈ providers, isScopedStepCall N ctx.Namespace E c) := by
  obtain ⟨c1, hc1⟩ := environmentServiceTerminator_extends E ctx.StackManager.ListStacks
    ctx.StackManager.DeleteStack ctx.StackManager.AwaitFinalStatus ctx.RolesetManager h
  rcases hs : environmentServiceTerminator E ctx.StackManager.ListStacks
    ctx.StackManager.DeleteStack ctx.StackManager.AwaitFinalStatus ctx.RolesetManager h
    with ⟨r1, t1⟩
  rw [hs] at hc1
  simp only at hc1
  subst hc1
  cases r1 with
  | some e =>
    refine ⟨[], ?_, by simp⟩
    simp [NewEnvironmentTerminator, environmentTerminatorSteps, newPipelineExecutor, hs,
      consumerCalls, emitted_append]
  | none =>
    obtain ⟨c2, hc2⟩ := environmentDbTerminator_extends E ctx.StackManager.ListStacks
      ctx.StackManager.DeleteStack ctx.StackManager.AwaitFinalStatus (h ++ c1)
    rcases hd : environmentDbTerminator E ctx.StackManager.ListStacks
      ctx.StackManager.DeleteStack ctx.StackManager.AwaitFinalStatus (h ++ c1) with ⟨r2, t2⟩
    rw [hd] at hc2
    simp only at hc2
    subst hc2
    cases r2 with
    | some e =>
      refine ⟨[], ?_, by simp⟩
      simp [NewEnvironmentTerminator, environmentTerminatorSteps, newPipelineExecutor, hs, hd,
        consumerCalls, emitted_append, emitted_append_append]
    | none =>
      obtain ⟨c3, hc3, hP⟩ := newPipelineExecutor_emits (isScopedStepCall N ctx.Namespace E)
        [ environmentEcsTerminator N ctx.Namespace E
            ctx.StackManager.DeleteStack ctx.StackManager.AwaitFinalStatus,
          environmentConsulTerminator N ctx.Namespace E
            ctx.StackManager.DeleteStack ctx.StackManager.AwaitFinalStatus,
          environmentRolesetTerminator ctx.RolesetManager E,
          environmentElbTerminator N ctx.Namespace E
            ctx.StackManager.DeleteStack ctx.StackManager.AwaitFinalStatus,
          environmentVpcTerminator N ctx.Namespace E
            ctx.StackManager.DeleteStack ctx.StackManager.AwaitFinalStatus ]
        (by
          intro ex hex
          simp only [List.mem_cons, List.mem_singleton, List.not_mem_nil, or_false] at hex
          rcases hex with rfl | rfl | rfl | rfl | rfl
          · exact environmentEcsTerminator_emits N _ E _ _
          · exact environmentConsulTerminator_emits N _ E _ _
          · exact environmentRolesetTerminator_emits N _ E _
          · exact environmentElbTerminator_emits N _ E _ _
          · exact environmentVpcTerminator_emits N _ E _ _)
        (h ++ c1 ++ c2)
      refine ⟨c3, ?_, hP⟩
      have hcons : consumerCalls ctx E h = c1 ++ c2 := by
        simp [consumerCalls, hs, hd, emitted_append, emitted_append_append]
      rw [hcons, ← List.append_assoc, ← hc3]
      simp only [NewEnvironmentTerminator, environmentTerminatorSteps]
      rw [newPipelineExecutor, hs]
      simp only
      rw [newPipelineExecutor, hd]

/-- C2 (as amended). In every run of the pipeline built by
`NewEnvironmentTerminator`, whatever the collaborators answer, the call log is
made of the calls of the Service and Database steps followed by calls that are
all `DeleteStack`/`AwaitFinalStatus` calls on the computed names of the later
steps or `DeleteEnvironmentRoleset`: no call of the Service or Database step
comes after a call of the ContainerPlatform, LoadBalancer or Network step.  In
terms of names: provided no `DeleteStack` call of the Service or Database step is
itself on the ContainerPlatform, LoadBalancer, VPC or target name, every
`DeleteStack` call on such a name has all the calls of the Service and Database
steps before it and only calls of the later steps after it. -/
theorem C2_order_invariant (N : StackNamer) (ctx : Context) (E : String) (h : List Call) :
    ∃ providers : List Call,
      (NewEnvironmentTerminator N ctx E h).2 = h ++ consumerCalls ctx E h ++ providers ∧
      (∀ c ∈ providers, isScopedStepCall N ctx.Namespace E c) ∧
      ((∀ n ∈ deleteCalls (consumerCalls ctx E h), n ∉ providerNames N ctx.Namespace E) →
        ∀ (a b : List Call) (n : String),
          consumerCalls ctx E h ++ providers = a ++ Call.DeleteStack n :: b →
          n ∈ providerNames N ctx.Namespace E →
          consumerCalls ctx E h <+: a ∧ ∀ c ∈ b, c ∈ providers) := by
  obtain ⟨providers, hlog, hP⟩ := NewEnvironmentTerminator_log N ctx E h
  refine ⟨providers, hlog, hP, ?_⟩
  intro hno a b n heq hn
  have hpre : consumerCalls ctx E h <+: a := by
    refine prefix_of_split _ providers a b (Call.DeleteStack n) ?_ heq
    intro hmem
    exact hno n ((mem_deleteCalls n _).2 hmem) hn
  refine ⟨hpre, ?_⟩
  obtain ⟨a1, ha1⟩ := hpre
  rw [← ha1, List.append_assoc] at heq
  have hprov : providers = a1 ++ Call.DeleteStack n :: b := List.append_cancel_left heq
  intro c hc
  rw [hprov]
  simp [hc]

/-- Witness of C2 (as amended): the scenario of section 8, in which no listed
stack bears the name of a later step. -/
theorem C2_order_invariant_witness :
    ∃ providers : List Call,
      (NewEnvironmentTerminator dashName devContext "dev" []).2 =
        [] ++ consumerCalls devContext "dev" [] ++ providers ∧
      ∀ (a b : List Call) (n : String),
        consumerCalls devContext "dev" [] ++ providers = a ++ Call.DeleteStack n :: b →
        n ∈ providerNames dashName devContext.Namespace "dev" →
        consumerCalls devContext "dev" [] <+: a ∧ ∀ c ∈ b, c ∈ providers := by
  obtain ⟨providers, hlog, _, hord⟩ := C2_order_invariant dashName devContext "dev" []
  exact ⟨providers, hlog, hord (by decide)⟩

/-- Counterexample to C2 as stated: the lister returns, as a Service stack of
`dev`, a stack that bears the ContainerPlatform name, followed by the stack of
service `web`.  The Service step calls `DeleteStack` on the ContainerPlatform
name and, after it, `DeleteStack` on the stack of `web`. -/
theorem C2_counterexample :
    dashName collidingContext.Namespace StackType.StackTypeEnv ["dev"] = "mu-environment-dev" ∧
    (serviceStep collidingContext "dev" []).2 =
      [Call.ListStacks StackType.StackTypeService,
       Call.DeleteStack "mu-environment-dev", Call.DeleteServiceRoleset "dev" "platform",
       Call.DeleteStack "mu-service-web-dev", Call.DeleteServiceRoleset "dev" "web",
       Call.AwaitFinalStatus "mu-environment-dev",
       Call.AwaitFinalStatus "mu-service-web-dev"] ∧
    NewEnvironmentTerminator dashName collidingContext "dev" [] =
      (none,
        [Call.ListStacks StackType.StackTypeService,
         Call.DeleteStack "mu-environment-dev", Call.DeleteServiceRoleset "dev" "platform",
         Call.DeleteStack "mu-service-web-dev", Call.DeleteServiceRoleset "dev" "web",
         Call.AwaitFinalStatus "mu-environment-dev",
         Call.AwaitFinalStatus "mu-service-web-dev",
         Call.ListStacks StackType.StackTypeDatabase,
         Call.DeleteStack "mu-environment-dev", Call.AwaitFinalStatus "mu-environment-dev",
         Call.DeleteStack "mu-consul-dev", Call.AwaitFinalStatus "mu-consul-dev",
         Call.DeleteEnvironmentRoleset "dev",
         Call.DeleteStack "mu-loadbalancer-dev", Call.AwaitFinalStatus "mu-loadbalancer-dev",
         Call.DeleteStack "mu-vpc-dev", Call.AwaitFinalStatus "mu-vpc-dev",
         Call.DeleteStack "mu-target-dev", Call.AwaitFinalStatus "mu-target-dev"]) ∧
    (∃ a b : List Call,
      emitted [] (serviceStep collidingContext "dev" []).2 =
        a ++ Call.DeleteStack (dashName collidingContext.Namespace StackType.StackTypeEnv ["dev"])
          :: b ∧
      Call.DeleteStack webStack.Name ∈ b) :=
  ⟨by decide, by decide, by decide,
    [Call.ListStacks StackType.StackTypeService],
    [Call.DeleteServiceRoleset "dev" "platform",
     Call.DeleteStack "mu-service-web-dev", Call.DeleteServiceRoleset "dev" "web",
     Call.AwaitFinalStatus "mu-environment-dev", Call.AwaitFinalStatus "mu-service-web-dev"],
    by decide, by decide⟩

/-! ## C3: status classification of the scoped steps -/

theorem HasSuffix_iff (s suf : String) :
    HasSuffix s suf = true ↔ ∃ p : String, s = p ++ suf := by
  unfold HasSuffix
  simp only [Bool.and_eq_true, decide_eq_true_eq]
  constructor
  · rintro ⟨_, hd⟩
    refine ⟨⟨s.data.take (s.data.length - suf.data.length)⟩, ?_⟩
    apply String.ext
    rw [String.data_append]
    conv_lhs => rw [← List.take_append_drop (s.data.length - suf.data.length) s.data]
    rw [hd]
  · rintro ⟨p, rfl⟩
    simp [String.data_append]

theorem Errorf_text (status reason : String) :
    (Errorf status reason).text = "Ended in failed status " ++ status ++ " " ++ reason := rfl

theorem Errorf_contains_status (status reason : String) :
    containsText (Errorf status reason).text status := by
  unfold containsText Errorf
  simp only [String.data_append]
  exact ⟨"Ended in failed status ".data, " ".data ++ reason.data, by simp⟩

theorem Errorf_contains_reason (status reason : String) :
    containsText (Errorf status reason).text reason := by
  unfold containsText Errorf
  simp only [String.data_append]
  exact ⟨"Ended in failed status ".data ++ status.data ++ " ".data, [], by simp⟩

theorem checkStatus_none : checkStatus none = none := rfl

theorem checkStatus_classified (st : Stack) : Classified st (checkStatus (some st)) := by
  have hiff := HasSuffix_iff st.Status "_COMPLETE"
  constructor
  · intro hE
    have : HasSuffix st.Status "_COMPLETE" = true := hiff.2 hE
    simp [checkStatus, this]
  · intro hE
    have : HasSuffix st.Status "_COMPLETE" = false := by
      cases hb : HasSuffix st.Status "_COMPLETE" with
      | false => rfl
      | true => exact absurd (hiff.1 hb) hE
    simp [checkStatus, this]

/-- The ContainerPlatform step in terms of the answers of its collaborators. -/
theorem environmentEcsTerminator_eq (N : StackNamer) (ns E : String) (del : StackDeleter)
    (w : StackWaiter) (h : List Call) :
    environmentEcsTerminator N ns E del w h =
      match del h (N ns StackType.StackTypeEnv [E]) with
      | some err => (some err, h ++ [Call.DeleteStack (N ns StackType.StackTypeEnv [E])])
      | none =>
        (checkStatus (w (h ++ [Call.DeleteStack (N ns StackType.StackTypeEnv [E])])
            (N ns StackType.StackTypeEnv [E])),
          h ++ [Call.DeleteStack (N ns StackType.StackTypeEnv [E]),
            Call.AwaitFinalStatus (N ns StackType.StackTypeEnv [E])]) := by
  unfold environmentEcsTerminator checkStatus
  simp only []
  repeat' split
  all_goals simp_all

/-- The ServiceDiscovery step in terms of the answers of its collaborators. -/
theorem environmentConsulTerminator_eq (N : StackNamer) (ns E : String) (del : StackDeleter)
    (w : StackWaiter) (h : List Call) :
    environmentConsulTerminator N ns E del w h =
      match del h (N ns StackType.StackTypeConsul [E]) with
      | some err => (some err, h ++ [Call.DeleteStack (N ns StackType.StackTypeConsul [E])])
      | none =>
        (checkStatus (w (h ++ [Call.DeleteStack (N ns StackType.StackTypeConsul [E])])
            (N ns StackType.StackTypeConsul [E])),
          h ++ [Call.DeleteStack (N ns StackType.StackTypeConsul [E]),
            Call.AwaitFinalStatus (N ns StackType.StackTypeConsul [E])]) := by
  unfold environmentConsulTerminator checkStatus
  simp only []
  repeat' split
  all_goals simp_all

/-- The LoadBalancer step in terms of the answers of its collaborators. -/
theorem environmentElbTerminator_eq (N : StackNamer) (ns E : String) (del : StackDeleter)
    (w : StackWaiter) (h : List Call) :
    environmentElbTerminator N ns E del w h =
      match del h (N ns StackType.StackTypeLoadBalancer [E]) with
      | some err =>
        (some err, h ++ [Call.DeleteStack (N ns StackType.StackTypeLoadBalancer [E])])
      | none =>
        (checkStatus (w (h ++ [Call.DeleteStack (N ns StackType.StackTypeLoadBalancer [E])])
            (N ns StackType.StackTypeLoadBalancer [E])),
          h ++ [Call.DeleteStack (N ns StackType.StackTypeLoadBalancer [E]),
            Call.AwaitFinalStatus (N ns StackType.StackTypeLoadBalancer [E])]) := by
  unfold environmentElbTerminator checkStatus
  simp only []
  repeat' split
  all_goals simp_all

/-- The second half of the Network step in terms of the answer of the waiter. -/
theorem vpcTargetPhase_eq (N : StackNamer) (ns E : String) (del : StackDeleter)
    (w : StackWaiter) (h : List Call) :
    vpcTargetPhase N ns E del w h =
      (checkStatus (w (h ++ [Call.DeleteStack (N ns StackType.StackTypeTarget [E])])
          (N ns StackType.StackTypeTarget [E])),
        h ++ [Call.DeleteStack (N ns StackType.StackTypeTarget [E]),
          Call.AwaitFinalStatus (N ns StackType.StackTypeTarget [E])]) := by
  unfold vpcTargetPhase checkStatus
  simp only []
  repeat' split
  all_goals simp_all

/-- The Network step in terms of the answers of the waiter. -/
theorem environmentVpcTerminator_eq (N : StackNamer) (ns E : String) (del : StackDeleter)
    (w : StackWaiter) (h : List Call) :
    environmentVpcTerminator N ns E del w h =
      match checkStatus (w (h ++ [Call.DeleteStack (N ns StackType.StackTypeVpc [E])])
          (N ns StackType.StackTypeVpc [E])) with
      | some err =>
        (some err, h ++ [Call.DeleteStack (N ns StackType.StackTypeVpc [E]),
          Call.AwaitFinalStatus (N ns StackType.StackTypeVpc [E])])
      | none =>
        vpcTargetPhase N ns E del w (h ++ [Call.DeleteStack (N ns StackType.StackTypeVpc [E]),
          Call.AwaitFinalStatus (N ns StackType.StackTypeVpc [E])]) := by
  unfold environmentVpcTerminator checkStatus
  simp only []
  repeat' split
  all_goals simp_all

/-- The single-service undeploy step in terms of the answers of its collaborators. -/
theorem serviceUndeployer_eq (N : StackNamer) (serviceName ns E : String) (del : StackDeleter)
    (w : StackWaiter) (h : List Call) :
    serviceUndeployer N serviceName ns E del w h =
      match w h (N ns StackType.StackTypeService [serviceName, E]) with
      | none => (none, h ++ [Call.AwaitFinalStatus (N ns StackType.StackTypeService [serviceName, E])])
      | some _ =>
        match del (h ++ [Call.AwaitFinalStatus (N ns StackType.StackTypeService [serviceName, E])])
            (N ns StackType.StackTypeService [serviceName, E]) with
        | some err =>
          (some err, h ++ [Call.AwaitFinalStatus (N ns StackType.StackTypeService [serviceName, E]),
            Call.DeleteStack (N ns StackType.StackTypeService [serviceName, E])])
        | none =>
          (checkStatus (w (h ++ [Call.AwaitFinalStatus (N ns StackType.StackTypeService [serviceName, E]),
              Call.DeleteStack (N ns StackType.StackTypeService [serviceName, E])])
              (N ns StackType.StackTypeService [serviceName, E])),
            h ++ [Call.AwaitFinalStatus (N ns StackType.StackTypeService [serviceName, E]),
              Call.DeleteStack (N ns StackType.StackTypeService [serviceName, E]),
              Call.AwaitFinalStatus (N ns StackType.StackTypeService [serviceName, E])]) := by
  unfold serviceUndeployer checkStatus
  simp only []
  repeat' split
  all_goals simp_all

theorem endsInComplete_iff (status : String) :
    EndsInComplete status ↔ HasSuffix status "_COMPLETE" = true :=
  (HasSuffix_iff status "_COMPLETE").symm

/-- C3. In every scoped step, the stack `st` returned by the wait that follows
the delete decides the phase: a `Status` ending in `_COMPLETE` is a success (the
step returns no error; for the first phase of the Network step, the step goes on
with the target stack), and any other `Status` makes the step return the error
whose text is `Ended in failed status <Status> <StatusReason>`, a text that
contains both the status and the reason. -/
theorem C3_status_classification (N : StackNamer) (ns E serviceName : String)
    (del : StackDeleter) (w : StackWaiter) (h : List Call) (st : Stack) :
    (del h (N ns StackType.StackTypeEnv [E]) = none →
      w (h ++ [Call.DeleteStack (N ns StackType.StackTypeEnv [E])])
        (N ns StackType.StackTypeEnv [E]) = some st →
      Classified st (environmentEcsTerminator N ns E del w h).1) ∧
    (del h (N ns StackType.StackTypeConsul [E]) = none →
      w (h ++ [Call.DeleteStack (N ns StackType.StackTypeConsul [E])])
        (N ns StackType.StackTypeConsul [E]) = some st →
      Classified st (environmentConsulTerminator N ns E del w h).1) ∧
    (del h (N ns StackType.StackTypeLoadBalancer [E]) = none →
      w (h ++ [Call.DeleteStack (N ns StackType.StackTypeLoadBalancer [E])])
        (N ns StackType.StackTypeLoadBalancer [E]) = some st →
      Classified st (environmentElbTerminator N ns E del w h).1) ∧
    (w (h ++ [Call.DeleteStack (N ns StackType.StackTypeVpc [E])])
        (N ns StackType.StackTypeVpc [E]) = some st →
      (EndsInComplete st.Status →
        environmentVpcTerminator N ns E del w h =
          vpcTargetPhase N ns E del w (h ++ [Call.DeleteStack (N ns StackType.StackTypeVpc [E]),
            Call.AwaitFinalStatus (N ns StackType.StackTypeVpc [E])])) ∧
      (¬ EndsInComplete st.Status →
        (environmentVpcTerminator N ns E del w h).1 =
          some (Errorf st.Status st.StatusReason))) ∧
    ((∀ st1, w (h ++ [Call.DeleteStack (N ns StackType.StackTypeVpc [E])])
        (N ns StackType.StackTypeVpc [E]) = some st1 → EndsInComplete st1.Status) →
      w (h ++ [Call.DeleteStack (N ns StackType.StackTypeVpc [E]),
          Call.AwaitFinalStatus (N ns StackType.StackTypeVpc [E]),
          Call.DeleteStack (N ns StackType.StackTypeTarget [E])])
        (N ns StackType.StackTypeTarget [E]) = some st →
      Classified st (environmentVpcTerminator N ns E del w h).1) ∧
    (w h (N ns StackType.StackTypeService [serviceName, E]) ≠ none →
      del (h ++ [Call.AwaitFinalStatus (N ns StackType.StackTypeService [serviceName, E])])
        (N ns StackType.StackTypeService [serviceName, E]) = none →
      w (h ++ [Call.AwaitFinalStatus (N ns StackType.StackTypeService [serviceName, E]),
          Call.DeleteStack (N ns StackType.StackTypeService [serviceName, E])])
        (N ns StackType.StackTypeService [serviceName, E]) = some st →
      Classified st (serviceUndeployer N serviceName ns E del w h).1) ∧
    ((Errorf st.Status st.StatusReason).text =
        "Ended in failed status " ++ st.Status ++ " " ++ st.StatusReason ∧
      containsText (Errorf st.Status st.StatusReason).text st.Status ∧
      containsText (Errorf st.Status st.StatusReason).text st.StatusReason) := by
  refine ⟨?_, ?_, ?_, ?_, ?_, ?_, ?_⟩
  · intro hd hw
    rw [environmentEcsTerminator_eq, hd]
    simp only [hw]
    exact checkStatus_classified st
  · intro hd hw
    rw [environmentConsulTerminator_eq, hd]
    simp only [hw]
    exact checkStatus_classified st
  · intro hd hw
    rw [environmentElbTerminator_eq, hd]
    simp only [hw]
    exact checkStatus_classified st
  · intro hw
    have hc := checkStatus_classified st
    constructor
    · intro hE
      rw [environmentVpcTerminator_eq, hw, hc.1 hE]
    · intro hE
      rw [environmentVpcTerminator_eq, hw, hc.2 hE]
  · intro hfirst hw
    have h1 : checkStatus (w (h ++ [Call.DeleteStack (N ns StackType.StackTypeVpc [E])])
        (N ns StackType.StackTypeVpc [E])) = none := by
      cases hv : w (h ++ [Call.DeleteStack (N ns StackType.StackTypeVpc [E])])
          (N ns StackType.StackTypeVpc [E]) with
      | none => rfl
      | some st1 => exact (checkStatus_classified st1).1 (hfirst st1 hv)
    rw [environmentVpcTerminator_eq, h1]
    simp only [vpcTargetPhase_eq, List.append_assoc, List.cons_append, List.nil_append, hw]
    exact checkStatus_classified st
  · intro hpresent hd hw
    rw [serviceUndeployer_eq]
    cases hfirst : w h (N ns StackType.StackTypeService [serviceName, E]) with
    | none => exact absurd hfirst hpresent
    | some st0 =>
      simp only [hd, hw]
      exact checkStatus_classified st
  · exact ⟨Errorf_text _ _, Errorf_contains_status _ _, Errorf_contains_reason _ _⟩

/-- Witness of C3: every step run against a waiter that reports `DELETE_COMPLETE`
returns no error, and the ContainerPlatform step and the single-service undeploy
run against a waiter that reports `DELETE_FAILED` return the error with the
status and the reason. -/
theorem C3_status_classification_witness :
    (environmentEcsTerminator dashName "mu" "dev" calmDeleter (fixedWaiter deletedStack) []).1
        = none ∧
    (environmentConsulTerminator dashName "mu" "dev" calmDeleter (fixedWaiter deletedStack) []).1
        = none ∧
    (environmentElbTerminator dashName "mu" "dev" calmDeleter (fixedWaiter deletedStack) []).1
        = none ∧
    (environmentVpcTerminator dashName "mu" "dev" calmDeleter (fixedWaiter deletedStack) []).1
        = none ∧
    (serviceUndeployer dashName "web" "mu" "dev" calmDeleter (fixedWaiter deletedStack) []).1
        = none ∧
    (environmentEcsTerminator dashName "mu" "dev" calmDeleter (fixedWaiter failedStack) []).1
        = some ⟨"Ended in failed status DELETE_FAILED dependent resource in use"⟩ ∧
    (environmentVpcTerminator dashName "mu" "dev" calmDeleter (fixedWaiter failedStack) []).1
        = some ⟨"Ended in failed status DELETE_FAILED dependent resource in use"⟩ ∧
    (serviceUndeployer dashName "web" "mu" "dev" calmDeleter (fixedWaiter failedStack) []).1
        = some ⟨"Ended in failed status DELETE_FAILED dependent resource in use"⟩ := by
  have hok : EndsInComplete deletedStack.Status := ⟨"DELETE", by decide⟩
  have hbad : ¬ EndsInComplete failedStack.Status := by
    rw [endsInComplete_iff]; decide
  have good := C3_status_classification dashName "mu" "dev" "web" calmDeleter
    (fixedWaiter deletedStack) [] deletedStack
  have bad := C3_status_classification dashName "mu" "dev" "web" calmDeleter
    (fixedWaiter failedStack) [] failedStack
  refine ⟨(good.1 rfl rfl).1 hok, (good.2.1 rfl rfl).1 hok, (good.2.2.1 rfl rfl).1 hok,
    ?_, (good.2.2.2.2.2.1 (by decide) rfl rfl).1 hok, (bad.1 rfl rfl).2 hbad,
    ((bad.2.2.2.1 rfl).2 hbad), (bad.2.2.2.2.2.1 (by decide) rfl rfl).2 hbad⟩
  refine (good.2.2.2.2.1 ?_ rfl).1 hok
  intro st1 hst1
  have : st1 = deletedStack := by
    simp only [fixedWaiter, Option.some.injEq] at hst1; exact hst1.symm
  rw [this]; exact hok

/-! ## C4: fail-fast of the environment pipeline -/

theorem envRolesetCalls_append (a b : List Call) :
    envRolesetCalls (a ++ b) = envRolesetCalls a ++ envRolesetCalls b := by
  induction a with
  | nil => rfl
  | cons c a ih => cases c <;> simp [envRolesetCalls, ih]

theorem mem_envRolesetCalls (n : String) (t : List Call) :
    n ∈ envRolesetCalls t ↔ Call.DeleteEnvironmentRoleset n ∈ t := by
  induction t with
  | nil => simp [envRolesetCalls]
  | cons c t ih => cases c <;> simp [envRolesetCalls, ih]

theorem envRolesetCalls_waitCalls (l : List Stack) : envRolesetCalls (waitCalls l) = [] := by
  induction l with
  | nil => rfl
  | cons s l ih =>
    simp only [waitCalls, List.map_cons, envRolesetCalls] at ih ⊢
    exact ih

theorem serviceDeleteLoop_envRoleset (E : String) (del : StackDeleter) (rs : RolesetDeleter)
    (l : List Stack) (h : List Call) :
    envRolesetCalls (serviceDeleteLoop E del rs l h).2 = envRolesetCalls h := by
  induction l generalizing h with
  | nil => simp [serviceDeleteLoop]
  | cons s l ih =>
    by_cases hs : s.tag "environment" = E
    · cases hd : del h s.Name with
      | some e => simp [serviceDeleteLoop, hs, hd, envRolesetCalls_append, envRolesetCalls]
      | none =>
        simp only [serviceDeleteLoop, hs, hd, ne_eq, not_true_eq_false, if_false]
        rw [ih]; simp [envRolesetCalls_append, envRolesetCalls]
    · simp [serviceDeleteLoop, hs, ih]

theorem dbDeleteLoop_envRoleset (E : String) (del : StackDeleter)
    (l : List Stack) (h : List Call) :
    envRolesetCalls (dbDeleteLoop E del l h).2 = envRolesetCalls h := by
  induction l generalizing h with
  | nil => simp [dbDeleteLoop]
  | cons s l ih =>
    by_cases hs : s.tag "environment" = E
    · cases hd : del h s.Name with
      | some e => simp [dbDeleteLoop, hs, hd, envRolesetCalls_append, envRolesetCalls]
      | none =>
        simp only [dbDeleteLoop, hs, hd, ne_eq, not_true_eq_false, if_false]
        rw [ih]; simp [envRolesetCalls_append, envRolesetCalls]
    · simp [dbDeleteLoop, hs, ih]

theorem environmentServiceTerminator_envRoleset (E : String) (lister : StackLister)
    (del : StackDeleter) (w : StackWaiter) (rs : RolesetDeleter) (h : List Call) :
    envRolesetCalls (environmentServiceTerminator E lister del w rs h).2 = envRolesetCalls h := by
  unfold environmentServiceTerminator
  cases lister h StackType.StackTypeService with
  | error e => simp [envRolesetCalls_append, envRolesetCalls]
  | ok l =>
    have hl := serviceDeleteLoop_envRoleset E del rs l
      (h ++ [Call.ListStacks StackType.StackTypeService])
    rcases hr : serviceDeleteLoop E del rs l
      (h ++ [Call.ListStacks StackType.StackTypeService]) with ⟨r, t⟩
    rw [hr] at hl
    simp only [envRolesetCalls_append, envRolesetCalls, List.append_nil] at hl
    cases r with
    | some e => simp only [hr]; exact hl
    | none =>
      simp only [hr, awaitLoop_eq, envRolesetCalls_append, envRolesetCalls_waitCalls,
        List.append_nil]
      exact hl

theorem environmentDbTerminator_envRoleset (E : String) (lister : StackLister)
    (del : StackDeleter) (w : StackWaiter) (h : List Call) :
    envRolesetCalls (environmentDbTerminator E lister del w h).2 = envRolesetCalls h := by
  unfold environmentDbTerminator
  cases lister h StackType.StackTypeDatabase with
  | error e => simp [envRolesetCalls_append, envRolesetCalls]
  | ok l =>
    have hl := dbDeleteLoop_envRoleset E del l
      (h ++ [Call.ListStacks StackType.StackTypeDatabase])
    rcases hr : dbDeleteLoop E del l
      (h ++ [Call.ListStacks StackType.StackTypeDatabase]) with ⟨r, t⟩
    rw [hr] at hl
    simp only [envRolesetCalls_append, envRolesetCalls, List.append_nil] at hl
    cases r with
    | some e => simp only [hr]; exact hl
    | none =>
      simp only [hr, awaitLoop_eq, envRolesetCalls_append, envRolesetCalls_waitCalls,
        List.append_nil]
      exact hl

/-- When the Service step returns no error, the call log after the Database step
is the initial log followed by the calls of the two steps. -/
theorem log_after_consumers (ctx : Context) (E : String) (h : List Call)
    (hsvc : (environmentServiceTerminator E ctx.StackManager.ListStacks
      ctx.StackManager.DeleteStack ctx.StackManager.AwaitFinalStatus ctx.RolesetManager h).1
        = none) :
    (environmentDbTerminator E ctx.StackManager.ListStacks ctx.StackManager.DeleteStack
      ctx.StackManager.AwaitFinalStatus
      (environmentServiceTerminator E ctx.StackManager.ListStacks
        ctx.StackManager.DeleteStack ctx.StackManager.AwaitFinalStatus
        ctx.RolesetManager h).2).2 = h ++ consumerCalls ctx E h := by
  obtain ⟨c1, hc1⟩ := environmentServiceTerminator_extends E ctx.StackManager.ListStacks
    ctx.StackManager.DeleteStack ctx.StackManager.AwaitFinalStatus ctx.RolesetManager h
  obtain ⟨c2, hc2⟩ := environmentDbTerminator_extends E ctx.StackManager.ListStacks
    ctx.StackManager.DeleteStack ctx.StackManager.AwaitFinalStatus (h ++ c1)
  simp only [consumerCalls, hsvc, hc1, hc2, emitted_append, List.append_assoc,
    emitted_append_append]

/-- The calls of the Service and Database steps hold no `DeleteEnvironmentRoleset`. -/
theorem consumerCalls_envRoleset (ctx : Context) (E : String) (h : List Call) :
    envRolesetCalls (consumerCalls ctx E h) = [] := by
  obtain ⟨c1, hc1⟩ := environmentServiceTerminator_extends E ctx.StackManager.ListStacks
    ctx.StackManager.DeleteStack ctx.StackManager.AwaitFinalStatus ctx.RolesetManager h
  obtain ⟨c2, hc2⟩ := environmentDbTerminator_extends E ctx.StackManager.ListStacks
    ctx.StackManager.DeleteStack ctx.StackManager.AwaitFinalStatus (h ++ c1)
  have e1 := environmentServiceTerminator_envRoleset E ctx.StackManager.ListStacks
    ctx.StackManager.DeleteStack ctx.StackManager.AwaitFinalStatus ctx.RolesetManager h
  have e2 := environmentDbTerminator_envRoleset E ctx.StackManager.ListStacks
    ctx.StackManager.DeleteStack ctx.StackManager.AwaitFinalStatus (h ++ c1)
  rw [hc1, envRolesetCalls_append] at e1
  rw [hc2, envRolesetCalls_append, envRolesetCalls_append] at e2
  have z1 : envRolesetCalls c1 = [] := by simpa using e1
  have z2 : envRolesetCalls c2 = [] := by simpa [z1] using e2
  unfold consumerCalls
  simp only [hc1, hc2, emitted_append]
  split <;> simp [envRolesetCalls_append, z1, z2, emitted_append_append]

/-- When the Service and Database steps return no error, the pipeline goes on
with the five remaining steps from the log reached after these two steps. -/
theorem NewEnvironmentTerminator_of_consumers_ok (N : StackNamer) (ctx : Context) (E : String)
    (h : List Call)
    (hsvc : (environmentServiceTerminator E ctx.StackManager.ListStacks
      ctx.StackManager.DeleteStack ctx.StackManager.AwaitFinalStatus ctx.RolesetManager h).1
        = none)
    (hdb : (environmentDbTerminator E ctx.StackManager.ListStacks ctx.StackManager.DeleteStack
      ctx.StackManager.AwaitFinalStatus
      (environmentServiceTerminator E ctx.StackManager.ListStacks
        ctx.StackManager.DeleteStack ctx.StackManager.AwaitFinalStatus
        ctx.RolesetManager h).2).1 = none) :
    NewEnvironmentTerminator N ctx E h =
      newPipelineExecutor (providerSteps N ctx E) (h ++ consumerCalls ctx E h) := by
  have hlog := log_after_consumers ctx E h hsvc
  rcases hs : environmentServiceTerminator E ctx.StackManager.ListStacks
    ctx.StackManager.DeleteStack ctx.StackManager.AwaitFinalStatus ctx.RolesetManager h
    with ⟨r1, t1⟩
  rw [hs] at hsvc hdb hlog
  simp only at hsvc hdb hlog
  subst hsvc
  rcases hd : environmentDbTerminator E ctx.StackManager.ListStacks
    ctx.StackManager.DeleteStack ctx.StackManager.AwaitFinalStatus t1 with ⟨r2, t2⟩
  rw [hd] at hdb hlog
  simp only at hdb hlog
  subst hdb
  rw [← hlog]
  simp only [NewEnvironmentTerminator, environmentTerminatorSteps, providerSteps, List.drop]
  rw [newPipelineExecutor, hs]
  simp only
  rw [newPipelineExecutor, hd]

/-- C4. When the Service and Database steps return no error and the wait of the
ContainerPlatform step returns a stack `st` whose `Status` does not end in
`_COMPLETE`, the pipeline built by `NewEnvironmentTerminator` returns exactly the
error of that step, whose text contains the status and the reason, and its call
log ends with the two calls of the ContainerPlatform step: no call of the
ServiceDiscovery, RoleSet, LoadBalancer or Network step is made.  In particular
no `DeleteEnvironmentRoleset` is called, and a `DeleteStack` or
`AwaitFinalStatus` call on a name other than the ContainerPlatform name is a
call of the Service or Database step. -/
theorem C4_fail_fast (N : StackNamer) (ctx : Context) (E : String) (h : List Call) (st : Stack)
    (hsvc : (serviceStep ctx E h).1 = none)
    (hdb : (dbStep ctx E (serviceStep ctx E h).2).1 = none)
    (hdel : ctx.StackManager.DeleteStack (h ++ consumerCalls ctx E h)
      (N ctx.Namespace StackType.StackTypeEnv [E]) = none)
    (hwait : ctx.StackManager.AwaitFinalStatus
      (h ++ consumerCalls ctx E h ++
        [Call.DeleteStack (N ctx.Namespace StackType.StackTypeEnv [E])])
      (N ctx.Namespace StackType.StackTypeEnv [E]) = some st)
    (hbad : ¬ EndsInComplete st.Status) :
    NewEnvironmentTerminator N ctx E h =
      (some (Errorf st.Status st.StatusReason),
        h ++ consumerCalls ctx E h ++
          [Call.DeleteStack (N ctx.Namespace StackType.StackTypeEnv [E]),
           Call.AwaitFinalStatus (N ctx.Namespace StackType.StackTypeEnv [E])]) ∧
    containsText (Errorf st.Status st.StatusReason).text st.Status ∧
    containsText (Errorf st.Status st.StatusReason).text st.StatusReason ∧
    (∀ env, Call.DeleteEnvironmentRoleset env ∉
      emitted h (NewEnvironmentTerminator N ctx E h).2) ∧
    (∀ n, n ≠ N ctx.Namespace StackType.StackTypeEnv [E] →
      (Call.DeleteStack n ∈ emitted h (NewEnvironmentTerminator N ctx E h).2 →
        Call.DeleteStack n ∈ consumerCalls ctx E h) ∧
      (Call.AwaitFinalStatus n ∈ emitted h (NewEnvironmentTerminator N ctx E h).2 →
        Call.AwaitFinalStatus n ∈ consumerCalls ctx E h)) := by
  have hrun : NewEnvironmentTerminator N ctx E h =
      (some (Errorf st.Status st.StatusReason),
        h ++ consumerCalls ctx E h ++
          [Call.DeleteStack (N ctx.Namespace StackType.StackTypeEnv [E]),
           Call.AwaitFinalStatus (N ctx.Namespace StackType.StackTypeEnv [E])]) := by
    rw [NewEnvironmentTerminator_of_consumers_ok N ctx E h hsvc hdb]
    simp only [providerSteps, environmentTerminatorSteps, List.drop]
    rw [newPipelineExecutor, environmentEcsTerminator_eq, hdel]
    simp only [hwait, (checkStatus_classified st).2 hbad]
  have hem : emitted h (NewEnvironmentTerminator N ctx E h).2 =
      consumerCalls ctx E h ++
        [Call.DeleteStack (N ctx.Namespace StackType.StackTypeEnv [E]),
         Call.AwaitFinalStatus (N ctx.Namespace StackType.StackTypeEnv [E])] := by
    rw [hrun]
    simp only [List.append_assoc]
    exact emitted_append _ _
  refine ⟨hrun, Errorf_contains_status _ _, Errorf_contains_reason _ _, ?_, ?_⟩
  · intro env hmem
    rw [hem, ← mem_envRolesetCalls, envRolesetCalls_append, consumerCalls_envRoleset] at hmem
    simp [envRolesetCalls] at hmem
  · intro n hn
    rw [hem]
    constructor
    · intro hmem
      rcases List.mem_append.1 hmem with hm | hm
      · exact hm
      · simp at hm; exact absurd hm hn
    · intro hmem
      rcases List.mem_append.1 hmem with hm | hm
      · exact hm
      · simp at hm; exact absurd hm hn

/-- Witness of C4: the failure scenario of section 8. -/
theorem C4_fail_fast_witness :
    NewEnvironmentTerminator dashName ecsFailedContext "dev" [] =
      (some ⟨"Ended in failed status DELETE_FAILED dependent resource in use"⟩,
        [Call.ListStacks StackType.StackTypeService,
         Call.DeleteStack "mu-service-web-dev", Call.DeleteServiceRoleset "dev" "web",
         Call.DeleteStack "mu-service-api-dev", Call.DeleteServiceRoleset "dev" "api",
         Call.AwaitFinalStatus "mu-service-web-dev", Call.AwaitFinalStatus "mu-service-api-dev",
         Call.ListStacks StackType.StackTypeDatabase,
         Call.DeleteStack "mu-database-web-dev", Call.AwaitFinalStatus "mu-database-web-dev",
         Call.DeleteStack "mu-environment-dev", Call.AwaitFinalStatus "mu-environment-dev"]) :=
  (C4_fail_fast dashName ecsFailedContext "dev" [] failedStack (by decide) (by decide)
    (by decide) (by decide) (by rw [endsInComplete_iff]; decide)).1.trans (by decide)

/-! ## C5: a second run over an environment that is gone -/

/-- C5 (as amended). From any call log `h` (for instance the log of a first run),
if during the run `ListStacks` returns an empty listing for the Service and
Database types, `AwaitFinalStatus` reports the five computed names as absent,
and moreover `DeleteStack` on the ContainerPlatform, ServiceDiscovery and
LoadBalancer names and `DeleteEnvironmentRoleset` succeed, then the pipeline
built by `NewEnvironmentTerminator` returns no error. -/
theorem C5_idempotent (N : StackNamer) (ctx : Context) (E : String) (h : List Call)
    (hlistS : ∀ h1, h <+: h1 →
      ctx.StackManager.ListStacks h1 StackType.StackTypeService = Except.ok [])
    (hlistD : ∀ h1, h <+: h1 →
      ctx.StackManager.ListStacks h1 StackType.StackTypeDatabase = Except.ok [])
    (hwait : ∀ h1 n, h <+: h1 →
      n ∈ N ctx.Namespace StackType.StackTypeConsul [E] :: providerNames N ctx.Namespace E →
      ctx.StackManager.AwaitFinalStatus h1 n = none)
    (hdel : ∀ h1 n, h <+: h1 →
      n ∈ [N ctx.Namespace StackType.StackTypeEnv [E],
        N ctx.Namespace StackType.StackTypeConsul [E],
        N ctx.Namespace StackType.StackTypeLoadBalancer [E]] →
      ctx.StackManager.DeleteStack h1 n = none)
    (hrole : ∀ h1, h <+: h1 → ctx.RolesetManager.DeleteEnvironmentRoleset h1 E = none) :
    NewEnvironmentTerminator N ctx E h =
      (none, h ++
        [Call.ListStacks StackType.StackTypeService,
         Call.ListStacks StackType.StackTypeDatabase,
         Call.DeleteStack (N ctx.Namespace StackType.StackTypeEnv [E]),
         Call.AwaitFinalStatus (N ctx.Namespace StackType.StackTypeEnv [E]),
         Call.DeleteStack (N ctx.Namespace StackType.StackTypeConsul [E]),
         Call.AwaitFinalStatus (N ctx.Namespace StackType.StackTypeConsul [E]),
         Call.DeleteEnvironmentRoleset E,
         Call.DeleteStack (N ctx.Namespace StackType.StackTypeLoadBalancer [E]),
         Call.AwaitFinalStatus (N ctx.Namespace StackType.StackTypeLoadBalancer [E]),
         Call.DeleteStack (N ctx.Namespace StackType.StackTypeVpc [E]),
         Call.AwaitFinalStatus (N ctx.Namespace StackType.StackTypeVpc [E]),
         Call.DeleteStack (N ctx.Namespace StackType.StackTypeTarget [E]),
         Call.AwaitFinalStatus (N ctx.Namespace StackType.StackTypeTarget [E])]) := by
  have pre : ∀ l : List Call, h <+: h ++ l := fun l => List.prefix_append h l
  have s1 : environmentServiceTerminator E ctx.StackManager.ListStacks
      ctx.StackManager.DeleteStack ctx.StackManager.AwaitFinalStatus ctx.RolesetManager h =
      (none, h ++ [Call.ListStacks StackType.StackTypeService]) := by
    simp [environmentServiceTerminator, hlistS h (List.prefix_refl h), serviceDeleteLoop,
      awaitLoop]
  have s2 : environmentDbTerminator E ctx.StackManager.ListStacks
      ctx.StackManager.DeleteStack ctx.StackManager.AwaitFinalStatus
      (h ++ [Call.ListStacks StackType.StackTypeService]) =
      (none, h ++ [Call.ListStacks StackType.StackTypeService,
        Call.ListStacks StackType.StackTypeDatabase]) := by
    simp [environmentDbTerminator, hlistD _ (pre _), dbDeleteLoop, awaitLoop]
  simp only [NewEnvironmentTerminator, environmentTerminatorSteps]
  rw [newPipelineExecutor, s1]
  simp only
  rw [newPipelineExecutor, s2]
  simp only
  rw [newPipelineExecutor, environmentEcsTerminator_eq, hdel _ _ (pre _) (by simp)]
  simp only [List.append_assoc, List.cons_append, List.nil_append]
  rw [hwait _ _ (pre _) (by simp [providerNames]), checkStatus_none]
  simp only
  rw [newPipelineExecutor, environmentConsulTerminator_eq, hdel _ _ (pre _) (by simp)]
  simp only [List.append_assoc, List.cons_append, List.nil_append]
  rw [hwait _ _ (pre _) (by simp [providerNames]), checkStatus_none]
  simp only
  rw [newPipelineExecutor]
  simp only [environmentRolesetTerminator, hrole _ (pre _), List.append_assoc, List.cons_append,
    List.nil_append]
  rw [newPipelineExecutor, environmentElbTerminator_eq, hdel _ _ (pre _) (by simp)]
  simp only [List.append_assoc, List.cons_append, List.nil_append]
  rw [hwait _ _ (pre _) (by simp [providerNames]), checkStatus_none]
  simp only
  rw [newPipelineExecutor, environmentVpcTerminator_eq]
  simp only [List.append_assoc, List.cons_append, List.nil_append]
  rw [hwait _ _ (pre _) (by simp [providerNames]), checkStatus_none]
  simp only [vpcTargetPhase_eq, List.append_assoc, List.cons_append, List.nil_append]
  rw [hwait _ _ (pre _) (by simp [providerNames]), checkStatus_none]
  simp only [newPipelineExecutor]

/-- Witness of C5 (as amended): two consecutive runs against a stack manager that
remembers what has been deleted.  The first run deletes the `dev` stacks, the
second run starts from the log of the first, lists nothing, finds every stack
absent and returns no error. -/
theorem C5_idempotent_witness :
    NewEnvironmentTerminator dashName remainingContext "dev" [] = (none, devRunLog) ∧
    (NewEnvironmentTerminator dashName remainingContext "dev" devRunLog).1 = none := by
  refine ⟨by decide, ?_⟩
  have hrun := C5_idempotent dashName remainingContext "dev" devRunLog
    (by
      intro h1 hp
      have m1 : Call.DeleteStack "mu-service-web-dev" ∈ h1 := hp.subset (by decide)
      have m2 : Call.DeleteStack "mu-service-api-dev" ∈ h1 := hp.subset (by decide)
      simp [remainingContext, remainingLister, webStack, apiStack, m1, m2])
    (by
      intro h1 hp
      have m1 : Call.DeleteStack "mu-database-web-dev" ∈ h1 := hp.subset (by decide)
      simp [remainingContext, remainingLister, devDbStack, m1])
    (by
      intro h1 n hp hn
      have e1 : dashName "mu" StackType.StackTypeConsul ["dev"] = "mu-consul-dev" := by decide
      have e2 : dashName "mu" StackType.StackTypeEnv ["dev"] = "mu-environment-dev" := by decide
      have e3 : dashName "mu" StackType.StackTypeLoadBalancer ["dev"] = "mu-loadbalancer-dev" := by
        decide
      have e4 : dashName "mu" StackType.StackTypeVpc ["dev"] = "mu-vpc-dev" := by decide
      have e5 : dashName "mu" StackType.StackTypeTarget ["dev"] = "mu-target-dev" := by decide
      have hmem : Call.DeleteStack n ∈ h1 := by
        simp only [providerNames, remainingContext, e1, e2, e3, e4, e5, List.mem_cons,
          List.mem_singleton, List.not_mem_nil, or_false] at hn
        rcases hn with rfl | rfl | rfl | rfl | rfl <;> exact hp.subset (by decide)
      simp [remainingContext, remainingWaiter, hmem])
    (fun _ _ _ _ => rfl) (fun _ _ => rfl)
  rw [hrun]

/-- Counterexample to C5 as stated: both listings are empty and every wait
reports the stack as absent, but `DeleteStack` fails; the ContainerPlatform step
returns that error and so does the pipeline. -/
theorem C5_counterexample :
    (∀ h t, deniedContext.StackManager.ListStacks h t = Except.ok []) ∧
    (∀ h n, deniedContext.StackManager.AwaitFinalStatus h n = none) ∧
    NewEnvironmentTerminator dashName deniedContext "dev" [] =
      (some ⟨"AccessDenied"⟩,
        [Call.ListStacks StackType.StackTypeService,
         Call.ListStacks StackType.StackTypeDatabase,
         Call.DeleteStack "mu-environment-dev"]) :=
  ⟨fun _ _ => rfl, fun _ _ => rfl, by decide⟩

/-! ## C6: the Network step after a failed delete -/

/-- C6 (as amended). In a run of `environmentVpcTerminator` in which `DeleteStack`
on the network stack name returns an error: if the wait on the network stack
reports the stack as absent or in a status ending in `_COMPLETE`, the step still
calls `DeleteStack` (and `AwaitFinalStatus`) on the target stack name; if the wait
reports a stack in any other status, the step returns the status error right
after that wait, without any call on the target stack. -/
theorem C6_best_effort (N : StackNamer) (ns E : String) (del : StackDeleter) (w : StackWaiter)
    (h : List Call) (e : GoError)
    (_hfail : del h (N ns StackType.StackTypeVpc [E]) = some e) :
    ((∀ st, w (h ++ [Call.DeleteStack (N ns StackType.StackTypeVpc [E])])
        (N ns StackType.StackTypeVpc [E]) = some st → EndsInComplete st.Status) →
      (environmentVpcTerminator N ns E del w h).2 =
        h ++ [Call.DeleteStack (N ns StackType.StackTypeVpc [E]),
          Call.AwaitFinalStatus (N ns StackType.StackTypeVpc [E]),
          Call.DeleteStack (N ns StackType.StackTypeTarget [E]),
          Call.AwaitFinalStatus (N ns StackType.StackTypeTarget [E])]) ∧
    (∀ st, w (h ++ [Call.DeleteStack (N ns StackType.StackTypeVpc [E])])
        (N ns StackType.StackTypeVpc [E]) = some st → ¬ EndsInComplete st.Status →
      environmentVpcTerminator N ns E del w h =
        (some (Errorf st.Status st.StatusReason),
          h ++ [Call.DeleteStack (N ns StackType.StackTypeVpc [E]),
            Call.AwaitFinalStatus (N ns StackType.StackTypeVpc [E])])) := by
  constructor
  · intro hfirst
    have h1 : checkStatus (w (h ++ [Call.DeleteStack (N ns StackType.StackTypeVpc [E])])
        (N ns StackType.StackTypeVpc [E])) = none := by
      cases hv : w (h ++ [Call.DeleteStack (N ns StackType.StackTypeVpc [E])])
          (N ns StackType.StackTypeVpc [E]) with
      | none => rfl
      | some st1 => exact (checkStatus_classified st1).1 (hfirst st1 hv)
    rw [environmentVpcTerminator_eq, h1]
    simp only [vpcTargetPhase_eq, List.append_assoc, List.cons_append, List.nil_append]
  · intro st hw hbad
    rw [environmentVpcTerminator_eq, hw, (checkStatus_classified st).2 hbad]

/-- Witness of C6 (as amended): every delete is denied and the network stack is
still reported in `CREATE_COMPLETE`; the target stack is deleted all the same. -/
theorem C6_best_effort_witness :
    (environmentVpcTerminator dashName "mu" "dev" deniedDeleter
        (statusWaiter "CREATE_COMPLETE" "") []).2 =
      [Call.DeleteStack "mu-vpc-dev", Call.AwaitFinalStatus "mu-vpc-dev",
       Call.DeleteStack "mu-target-dev", Call.AwaitFinalStatus "mu-target-dev"] := by
  have hrun := (C6_best_effort dashName "mu" "dev" deniedDeleter
    (statusWaiter "CREATE_COMPLETE" "") [] ⟨"AccessDenied"⟩ rfl).1
    (by
      intro st hst
      have : st.Status = "CREATE_COMPLETE" := by
        simp only [statusWaiter, Option.some.injEq] at hst
        rw [← hst]
      rw [this]
      exact ⟨"CREATE", by decide⟩)
  exact hrun.trans (by decide)

/-- Counterexample to C6 as stated: `DeleteStack` on the network stack name fails
and the wait reports the network stack in `DELETE_FAILED`; the step returns the
status error and never calls `DeleteStack` on the target stack name. -/
theorem C6_counterexample :
    deniedDeleter [] (dashName "mu" StackType.StackTypeVpc ["dev"]) = some ⟨"AccessDenied"⟩ ∧
    environmentVpcTerminator dashName "mu" "dev" deniedDeleter (fixedWaiter failedStack) [] =
      (some ⟨"Ended in failed status DELETE_FAILED dependent resource in use"⟩,
        [Call.DeleteStack "mu-vpc-dev", Call.AwaitFinalStatus "mu-vpc-dev"]) ∧
    Call.DeleteStack (dashName "mu" StackType.StackTypeTarget ["dev"]) ∉
      (environmentVpcTerminator dashName "mu" "dev" deniedDeleter
        (fixedWaiter failedStack) []).2 := by
  decide

/-! ## C7: call log of the scenario of section 8 -/

/-- C7 (as amended). When the Service listing holds exactly two stacks tagged
environment `dev` (services `web` and `api`), the Database listing holds exactly
one stack tagged environment `dev`, every collaborator call succeeds and every
wait reports a status ending in `_COMPLETE`, the pipeline built by
`NewEnvironmentTerminator` for `dev` returns no error and its call log is: the
Service listing, the two service deletes, each followed at once by the
`DeleteServiceRoleset` call of its service (`web`, then `api`), the two service
waits, the Database listing, the database delete and wait, then a delete and a
wait for ContainerPlatform, for ServiceDiscovery, `DeleteEnvironmentRoleset`,
then a delete and a wait for LoadBalancer, for the network stack and for the
target stack. -/
theorem C7_happy_path (N : StackNamer) (ctx : Context) (h : List Call) (s1 s2 d : Stack)
    (hs1 : s1.tag "environment" = "dev" ∧ s1.tag "service" = "web")
    (hs2 : s2.tag "environment" = "dev" ∧ s2.tag "service" = "api")
    (hd : d.tag "environment" = "dev")
    (hlistS : ∀ h1, ctx.StackManager.ListStacks h1 StackType.StackTypeService
      = Except.ok [s1, s2])
    (hlistD : ∀ h1, ctx.StackManager.ListStacks h1 StackType.StackTypeDatabase
      = Except.ok [d])
    (hdel : ∀ h1 n, ctx.StackManager.DeleteStack h1 n = none)
    (hroleE : ∀ h1 env, ctx.RolesetManager.DeleteEnvironmentRoleset h1 env = none)
    (hwait : ∀ h1 n, ∃ st, ctx.StackManager.AwaitFinalStatus h1 n = some st ∧
      EndsInComplete st.Status) :
    NewEnvironmentTerminator N ctx "dev" h =
      (none, h ++
        [Call.ListStacks StackType.StackTypeService,
         Call.DeleteStack s1.Name, Call.DeleteServiceRoleset "dev" "web",
         Call.DeleteStack s2.Name, Call.DeleteServiceRoleset "dev" "api",
         Call.AwaitFinalStatus s1.Name, Call.AwaitFinalStatus s2.Name,
         Call.ListStacks StackType.StackTypeDatabase,
         Call.DeleteStack d.Name, Call.AwaitFinalStatus d.Name,
         Call.DeleteStack (N ctx.Namespace StackType.StackTypeEnv ["dev"]),
         Call.AwaitFinalStatus (N ctx.Namespace StackType.StackTypeEnv ["dev"]),
         Call.DeleteStack (N ctx.Namespace StackType.StackTypeConsul ["dev"]),
         Call.AwaitFinalStatus (N ctx.Namespace StackType.StackTypeConsul ["dev"]),
         Call.DeleteEnvironmentRoleset "dev",
         Call.DeleteStack (N ctx.Namespace StackType.StackTypeLoadBalancer ["dev"]),
         Call.AwaitFinalStatus (N ctx.Namespace StackType.StackTypeLoadBalancer ["dev"]),
         Call.DeleteStack (N ctx.Namespace StackType.StackTypeVpc ["dev"]),
         Call.AwaitFinalStatus (N ctx.Namespace StackType.StackTypeVpc ["dev"]),
         Call.DeleteStack (N ctx.Namespace StackType.StackTypeTarget ["dev"]),
         Call.AwaitFinalStatus (N ctx.Namespace StackType.StackTypeTarget ["dev"])]) := by
  have hcheck : ∀ h1 n, checkStatus (ctx.StackManager.AwaitFinalStatus h1 n) = none := by
    intro h1 n
    obtain ⟨st, hst, hE⟩ := hwait h1 n
    rw [hst]; exact (checkStatus_classified st).1 hE
  have s1run := environmentServiceTerminator_ok "dev" ctx.StackManager.ListStacks
    ctx.StackManager.DeleteStack ctx.StackManager.AwaitFinalStatus ctx.RolesetManager h
    [s1, s2] (hlistS h) hdel
  have m1 : matched "dev" [s1, s2] = [s1, s2] := by simp [matched, hs1.1, hs2.1]
  rw [m1] at s1run
  simp only [serviceCalls, waitCalls, hs1.2, hs2.2, List.map_cons, List.map_nil,
    List.cons_append, List.nil_append] at s1run
  have s2run := fun h1 => environmentDbTerminator_ok "dev" ctx.StackManager.ListStacks
    ctx.StackManager.DeleteStack ctx.StackManager.AwaitFinalStatus h1 [d] (hlistD h1) hdel
  have m2 : matched "dev" [d] = [d] := by simp [matched, hd]
  rw [m2] at s2run
  simp only [dbCalls, waitCalls, List.map_cons, List.map_nil, List.cons_append,
    List.nil_append] at s2run
  simp only [NewEnvironmentTerminator, environmentTerminatorSteps]
  rw [newPipelineExecutor, s1run]
  simp only
  rw [newPipelineExecutor, s2run]
  simp only
  rw [newPipelineExecutor, environmentEcsTerminator_eq, hdel]
  simp only [hcheck, List.append_assoc, List.cons_append, List.nil_append]
  rw [newPipelineExecutor, environmentConsulTerminator_eq, hdel]
  simp only [hcheck, List.append_assoc, List.cons_append, List.nil_append]
  rw [newPipelineExecutor]
  simp only [environmentRolesetTerminator, hroleE, List.append_assoc, List.cons_append,
    List.nil_append]
  rw [newPipelineExecutor, environmentElbTerminator_eq, hdel]
  simp only [hcheck, List.append_assoc, List.cons_append, List.nil_append]
  rw [newPipelineExecutor, environmentVpcTerminator_eq]
  simp only [hcheck, vpcTargetPhase_eq, List.append_assoc, List.cons_append, List.nil_append,
    newPipelineExecutor]

/-- Witness of C7 (as amended): the scenario of section 8 with the names
`<namespace>-<type>-dev`. -/
theorem C7_happy_path_witness :
    NewEnvironmentTerminator dashName devContext "dev" [] = (none, devRunLog) :=
  (C7_happy_path dashName devContext [] webStack apiStack devDbStack
    (by decide) (by decide) (by decide) (fun _ => rfl) (fun _ => rfl) (fun _ _ => rfl)
    (fun _ _ => rfl) (fun _ _ => ⟨_, rfl, ⟨"DELETE", rfl⟩⟩)).trans (by decide)

/-- Counterexample to C7 as stated: in the scenario of section 8 the two
`DeleteServiceRoleset` calls are not made after the scoped deletes but inside the
Service step, each right after the delete of its service and before the database
delete; and the scoped steps issue five `DeleteStack` calls, the Network step
deleting the network stack and the target stack. -/
theorem C7_counterexample :
    NewEnvironmentTerminator dashName devContext "dev" [] = (none, devRunLog) ∧
    teardownCalls devRunLog =
      [Call.DeleteStack "mu-service-web-dev", Call.DeleteServiceRoleset "dev" "web",
       Call.DeleteStack "mu-service-api-dev", Call.DeleteServiceRoleset "dev" "api",
       Call.DeleteStack "mu-database-web-dev",
       Call.DeleteStack "mu-environment-dev", Call.DeleteStack "mu-consul-dev",
       Call.DeleteStack "mu-loadbalancer-dev", Call.DeleteStack "mu-vpc-dev",
       Call.DeleteStack "mu-target-dev"] ∧
    teardownCalls devRunLog ≠
      [Call.DeleteStack "mu-service-web-dev", Call.DeleteStack "mu-service-api-dev",
       Call.DeleteStack "mu-database-web-dev",
       Call.DeleteStack "mu-environment-dev", Call.DeleteStack "mu-consul-dev",
       Call.DeleteStack "mu-loadbalancer-dev", Call.DeleteStack "mu-vpc-dev",
       Call.DeleteServiceRoleset "dev" "web", Call.DeleteServiceRoleset "dev" "api"] := by
  decide

/-! ## C8: single-service undeploy of an absent stack -/

/-- C8. If the first `AwaitFinalStatus` of `serviceUndeployer`, on the name
`CreateStackName(namespace, StackTypeService, serviceName, environment)`, returns
no stack, the step makes no other call, in particular no `DeleteStack` call, and
returns no error. -/
theorem C8_undeploy_absent (N : StackNamer) (serviceName ns E : String) (del : StackDeleter)
    (w : StackWaiter) (h : List Call)
    (habsent : w h (N ns StackType.StackTypeService [serviceName, E]) = none) :
    serviceUndeployer N serviceName ns E del w h =
      (none, h ++ [Call.AwaitFinalStatus (N ns StackType.StackTypeService [serviceName, E])]) ∧
    deleteCalls (emitted h (serviceUndeployer N serviceName ns E del w h).2) = [] := by
  have hrun : serviceUndeployer N serviceName ns E del w h =
      (none, h ++ [Call.AwaitFinalStatus (N ns StackType.StackTypeService [serviceName, E])]) := by
    rw [serviceUndeployer_eq, habsent]
  refine ⟨hrun, ?_⟩
  rw [hrun]
  simp only [emitted_append]
  rfl

/-- Witness of C8: the stack of service `web` in `dev` is absent. -/
theorem C8_undeploy_absent_witness :
    serviceUndeployer dashName "web" "mu" "dev" deniedDeleter goneWaiter [] =
      (none, [Call.AwaitFinalStatus "mu-service-web-dev"]) :=
  (C8_undeploy_absent dashName "web" "mu" "dev" deniedDeleter goneWaiter [] rfl).1.trans
    (by decide)

/-! ## C9: a filtered step stops at the first failed delete -/

/-- The first loop of the Service step when the delete of the matched stack of
index `k` is the first to fail. -/
theorem serviceDeleteLoop_fail (E : String) (del : StackDeleter) (rs : RolesetDeleter)
    (l : List Stack) (h : List Call) (k : Nat) (s : Stack) (e : GoError)
    (hk : (matched E l)[k]? = some s)
    (hbefore : ∀ j s1, j < k → (matched E l)[j]? = some s1 →
      del (h ++ serviceCalls E ((matched E l).take j)) s1.Name = none)
    (hfail : del (h ++ serviceCalls E ((matched E l).take k)) s.Name = some e) :
    serviceDeleteLoop E del rs l h =
      (some e, h ++ (serviceCalls E ((matched E l).take k) ++ [Call.DeleteStack s.Name])) := by
  induction l generalizing h k with
  | nil => simp [matched] at hk
  | cons x l ih =>
    by_cases hx : x.tag "environment" = E
    · rw [matched_cons_of_eq E x l hx] at hk hbefore hfail ⊢
      cases k with
      | zero =>
        simp only [List.getElem?_cons_zero, Option.some.injEq] at hk
        subst hk
        simp only [List.take_zero, serviceCalls, List.append_nil] at hfail
        simp [serviceDeleteLoop, hx, hfail, serviceCalls]
      | succ k =>
        have h0 : del h x.Name = none := by
          have := hbefore 0 x (Nat.succ_pos k) (by simp)
          simpa [serviceCalls] using this
        simp only [List.getElem?_cons_succ] at hk
        simp only [serviceDeleteLoop, hx, h0, ne_eq, not_true_eq_false, if_false]
        rw [ih (h ++ [Call.DeleteStack x.Name] ++ [Call.DeleteServiceRoleset E (x.tag "service")])
          k hk]
        · simp [serviceCalls]
        · intro j s1 hj hs1
          have := hbefore (j + 1) s1 (Nat.succ_lt_succ hj) (by simpa using hs1)
          simpa [serviceCalls] using this
        · simpa [serviceCalls] using hfail
    · rw [matched_cons_of_ne E x l hx] at hk hbefore hfail ⊢
      simp only [serviceDeleteLoop, hx, ne_eq, not_false_eq_true, if_true]
      exact ih h k hk hbefore hfail

/-- The first loop of the Database step when the delete of the matched stack of
index `k` is the first to fail. -/
theorem dbDeleteLoop_fail (E : String) (del : StackDeleter)
    (l : List Stack) (h : List Call) (k : Nat) (s : Stack) (e : GoError)
    (hk : (matched E l)[k]? = some s)
    (hbefore : ∀ j s1, j < k → (matched E l)[j]? = some s1 →
      del (h ++ dbCalls ((matched E l).take j)) s1.Name = none)
    (hfail : del (h ++ dbCalls ((matched E l).take k)) s.Name = some e) :
    dbDeleteLoop E del l h =
      (some e, h ++ (dbCalls ((matched E l).take k) ++ [Call.DeleteStack s.Name])) := by
  induction l generalizing h k with
  | nil => simp [matched] at hk
  | cons x l ih =>
    by_cases hx : x.tag "environment" = E
    · rw [matched_cons_of_eq E x l hx] at hk hbefore hfail ⊢
      cases k with
      | zero =>
        simp only [List.getElem?_cons_zero, Option.some.injEq] at hk
        subst hk
        simp only [List.take_zero, dbCalls, List.map_nil, List.append_nil] at hfail
        simp [dbDeleteLoop, hx, hfail, dbCalls]
      | succ k =>
        have h0 : del h x.Name = none := by
          have := hbefore 0 x (Nat.succ_pos k) (by simp)
          simpa [dbCalls] using this
        simp only [List.getElem?_cons_succ] at hk
        simp only [dbDeleteLoop, hx, h0, ne_eq, not_true_eq_false, if_false]
        rw [ih (h ++ [Call.DeleteStack x.Name]) k hk]
        · simp [dbCalls]
        · intro j s1 hj hs1
          have := hbefore (j + 1) s1 (Nat.succ_lt_succ hj) (by simpa using hs1)
          simpa [dbCalls] using this
        · simpa [dbCalls] using hfail
    · rw [matched_cons_of_ne E x l hx] at hk hbefore hfail ⊢
      simp only [dbDeleteLoop, hx, ne_eq, not_false_eq_true, if_true]
      exact ih h k hk hbefore hfail

theorem map_name_take_succ (m : List Stack) (k : Nat) (s : Stack) (hk : m[k]? = some s) :
    (m.take k).map Stack.Name ++ [s.Name] = (m.take (k + 1)).map Stack.Name := by
  induction m generalizing k with
  | nil => simp at hk
  | cons x m ih =>
    cases k with
    | zero =>
      simp only [List.getElem?_cons_zero, Option.some.injEq] at hk
      simp [hk]
    | succ k =>
      simp only [List.getElem?_cons_succ] at hk
      simp only [List.take_succ_cons, List.map_cons, List.cons_append, ih k hk]

/-- C9. In the Service step and in the Database step, if the listing succeeds,
the `DeleteStack` calls on the matched stacks of index below `k` (in listing
order, counted from 0) succeed and the call on the matched stack `s` of index
`k` fails with error `e`, then the step returns exactly `e`; its calls are the
listing, the calls for the matched stacks before `s` and the failed
`DeleteStack` on `s`: it has called `DeleteStack` on the first `k + 1` matched
stacks only, on no later stack, and has made no `AwaitFinalStatus` call. -/
theorem C9_abort_on_failed_delete (E : String) (lister : StackLister) (del : StackDeleter)
    (w : StackWaiter) (rs : RolesetDeleter) (h : List Call) (listing : List Stack)
    (k : Nat) (s : Stack) (e : GoError)
    (hk : (matched E listing)[k]? = some s) :
    (lister h StackType.StackTypeService = Except.ok listing →
      (∀ j s1, j < k → (matched E listing)[j]? = some s1 →
        del (h ++ Call.ListStacks StackType.StackTypeService ::
          serviceCalls E ((matched E listing).take j)) s1.Name = none) →
      del (h ++ Call.ListStacks StackType.StackTypeService ::
        serviceCalls E ((matched E listing).take k)) s.Name = some e →
      environmentServiceTerminator E lister del w rs h =
        (some e, h ++ Call.ListStacks StackType.StackTypeService ::
          (serviceCalls E ((matched E listing).take k) ++ [Call.DeleteStack s.Name])) ∧
      deleteCalls (emitted h (environmentServiceTerminator E lister del w rs h).2) =
        ((matched E listing).take (k + 1)).map Stack.Name ∧
      awaitCalls (emitted h (environmentServiceTerminator E lister del w rs h).2) = []) ∧
    (lister h StackType.StackTypeDatabase = Except.ok listing →
      (∀ j s1, j < k → (matched E listing)[j]? = some s1 →
        del (h ++ Call.ListStacks StackType.StackTypeDatabase ::
          dbCalls ((matched E listing).take j)) s1.Name = none) →
      del (h ++ Call.ListStacks StackType.StackTypeDatabase ::
        dbCalls ((matched E listing).take k)) s.Name = some e →
      environmentDbTerminator E lister del w h =
        (some e, h ++ Call.ListStacks StackType.StackTypeDatabase ::
          (dbCalls ((matched E listing).take k) ++ [Call.DeleteStack s.Name])) ∧
      deleteCalls (emitted h (environmentDbTerminator E lister del w h).2) =
        ((matched E listing).take (k + 1)).map Stack.Name ∧
      awaitCalls (emitted h (environmentDbTerminator E lister del w h).2) = []) := by
  constructor
  · intro hlist hbefore hfail
    have hloop := serviceDeleteLoop_fail E del rs listing
      (h ++ [Call.ListStacks StackType.StackTypeService]) k s e hk
      (by intro j s1 hj hs1; simpa using hbefore j s1 hj hs1)
      (by simpa using hfail)
    have hrun : environmentServiceTerminator E lister del w rs h =
        (some e, h ++ Call.ListStacks StackType.StackTypeService ::
          (serviceCalls E ((matched E listing).take k) ++ [Call.DeleteStack s.Name])) := by
      simp only [environmentServiceTerminator, hlist, hloop]
      simp
    refine ⟨hrun, ?_, ?_⟩
    · rw [hrun]
      simp only [emitted_append, deleteCalls, deleteCalls_append, deleteCalls_serviceCalls]
      exact map_name_take_succ _ k s hk
    · rw [hrun]
      simp [emitted_append, awaitCalls, awaitCalls_append, awaitCalls_serviceCalls]
  · intro hlist hbefore hfail
    have hloop := dbDeleteLoop_fail E del listing
      (h ++ [Call.ListStacks StackType.StackTypeDatabase]) k s e hk
      (by intro j s1 hj hs1; simpa using hbefore j s1 hj hs1)
      (by simpa using hfail)
    have hrun : environmentDbTerminator E lister del w h =
        (some e, h ++ Call.ListStacks StackType.StackTypeDatabase ::
          (dbCalls ((matched E listing).take k) ++ [Call.DeleteStack s.Name])) := by
      simp only [environmentDbTerminator, hlist, hloop]
      simp
    refine ⟨hrun, ?_, ?_⟩
    · rw [hrun]
      simp only [emitted_append, deleteCalls, deleteCalls_append, deleteCalls_dbCalls]
      exact map_name_take_succ _ k s hk
    · rw [hrun]
      simp [emitted_append, awaitCalls, awaitCalls_append, awaitCalls_dbCalls]

/-- Witness of C9: the listing holds the `dev` services `web` and `api` (and a
`prod` stack between them) and the delete of `api`, the second matched stack,
fails. -/
theorem C9_abort_on_failed_delete_witness :
    environmentServiceTerminator "dev" (constLister [webStack, prodStack, apiStack])
        apiThrottledDeleter goneWaiter quietRoles [] =
      (some ⟨"Throttling"⟩,
        [Call.ListStacks StackType.StackTypeService,
         Call.DeleteStack "mu-service-web-dev", Call.DeleteServiceRoleset "dev" "web",
         Call.DeleteStack "mu-service-api-dev"]) ∧
    environmentDbTerminator "dev" (constLister [webStack, prodStack, apiStack])
        apiThrottledDeleter goneWaiter [] =
      (some ⟨"Throttling"⟩,
        [Call.ListStacks StackType.StackTypeDatabase,
         Call.DeleteStack "mu-service-web-dev", Call.DeleteStack "mu-service-api-dev"]) := by
  have hm : matched "dev" [webStack, prodStack, apiStack] = [webStack, apiStack] := by decide
  have hall := C9_abort_on_failed_delete "dev" (constLister [webStack, prodStack, apiStack])
    apiThrottledDeleter goneWaiter quietRoles [] [webStack, prodStack, apiStack] 1 apiStack
    ⟨"Throttling"⟩ (by decide)
  have hbefore : ∀ (t : List Call) (j : Nat) (s1 : Stack), j < 1 →
      (matched "dev" [webStack, prodStack, apiStack])[j]? = some s1 →
      apiThrottledDeleter t s1.Name = none := by
    intro t j s1 hj hs1
    have hj0 : j = 0 := by omega
    subst hj0
    rw [hm] at hs1
    simp only [List.getElem?_cons_zero, Option.some.injEq] at hs1
    subst hs1
    rfl
  exact ⟨(hall.1 rfl (fun j s1 hj hs1 => hbefore _ j s1 hj hs1) (by decide)).1.trans (by decide),
    (hall.2 rfl (fun j s1 hj hs1 => hbefore _ j s1 hj hs1) (by decide)).1.trans (by decide)⟩

/-! ## C10: the filtered steps never look at the status -/

theorem prefix_of_not_mem_right (x : Call) (a b p : List Call) (hx : x ∉ b)
    (hp : p ++ [x] <+: a ++ b) : p ++ [x] <+: a := by
  induction a generalizing p with
  | nil =>
    simp only [List.nil_append] at hp
    exact absurd (hp.subset (by simp)) hx
  | cons y a ih =>
    cases p with
    | nil =>
      simp only [List.nil_append, List.cons_append] at hp ⊢
      rw [List.cons_prefix_cons] at hp ⊢
      exact ⟨hp.1, List.nil_prefix⟩
    | cons z p =>
      simp only [List.cons_append] at hp ⊢
      rw [List.cons_prefix_cons] at hp ⊢
      exact ⟨hp.1, ih p hp.2⟩

theorem deleteStack_not_mem_waitCalls (n : String) (l : List Stack) :
    Call.DeleteStack n ∉ waitCalls l := by
  simp [waitCalls]

/-- The first loop of the Service step returns an error exactly when one of its
`DeleteStack` calls, made on a matched stack, returned that error. -/
theorem serviceDeleteLoop_failed (E : String) (del : StackDeleter) (rs : RolesetDeleter)
    (l : List Stack) (h : List Call) :
    ∃ c, (serviceDeleteLoop E del rs l h).2 = h ++ c ∧
      (∀ e, (serviceDeleteLoop E del rs l h).1 = some e →
        ∃ s ∈ l, s.tag "environment" = E ∧ DeleteFailed del h c s.Name e) ∧
      (∀ n e, DeleteFailed del h c n e → (serviceDeleteLoop E del rs l h).1 = some e) := by
  induction l generalizing h with
  | nil =>
    refine ⟨[], by simp [serviceDeleteLoop], by simp [serviceDeleteLoop], ?_⟩
    rintro n e ⟨p, hp, _⟩
    have := hp.length_le
    simp at this
  | cons x l ih =>
    by_cases hx : x.tag "environment" = E
    · cases hd : del h x.Name with
      | some e1 =>
        refine ⟨[Call.DeleteStack x.Name], by simp [serviceDeleteLoop, hx, hd], ?_, ?_⟩
        · intro e he
          simp only [serviceDeleteLoop, hx, hd, ne_eq, not_true_eq_false, if_false,
            Option.some.injEq] at he
          subst he
          exact ⟨x, List.mem_cons_self _ _, hx, [], by simp, by simpa using hd⟩
        · rintro n e ⟨p, hp, hpe⟩
          cases p with
          | nil =>
            simp only [List.nil_append, List.cons_prefix_cons, Call.DeleteStack.injEq] at hp
            simp only [List.append_nil] at hpe
            rw [hp.1, hd] at hpe
            simp only [serviceDeleteLoop, hx, hd, ne_eq, not_true_eq_false, if_false]
            exact hpe
          | cons z p =>
            have := hp.length_le
            simp at this
      | none =>
        obtain ⟨c, hc, h1, h2⟩ := ih (h ++ [Call.DeleteStack x.Name] ++
          [Call.DeleteServiceRoleset E (x.tag "service")])
        have hloop : serviceDeleteLoop E del rs (x :: l) h =
            serviceDeleteLoop E del rs l (h ++ [Call.DeleteStack x.Name] ++
              [Call.DeleteServiceRoleset E (x.tag "service")]) := by
          simp only [serviceDeleteLoop, hx, hd, ne_eq, not_true_eq_false, if_false]
        refine ⟨Call.DeleteStack x.Name :: Call.DeleteServiceRoleset E (x.tag "service") :: c,
          by rw [hloop, hc]; simp, ?_, ?_⟩
        · intro e he
          rw [hloop] at he
          obtain ⟨s, hs, hsE, p, hp, hpe⟩ := h1 e he
          refine ⟨s, List.mem_cons_of_mem _ hs, hsE,
            Call.DeleteStack x.Name :: Call.DeleteServiceRoleset E (x.tag "service") :: p, ?_, ?_⟩
          · simp only [List.cons_append, List.cons_prefix_cons, true_and]
            exact hp
          · simpa using hpe
        · rintro n e ⟨p, hp, hpe⟩
          rw [hloop]
          cases p with
          | nil =>
            simp only [List.nil_append, List.cons_prefix_cons, Call.DeleteStack.injEq] at hp
            rw [← hp.1] at hd
            simp only [List.append_nil] at hpe
            rw [hd] at hpe
            exact absurd hpe (by simp)
          | cons y p =>
            cases p with
            | nil =>
              simp only [List.cons_append, List.nil_append, List.cons_prefix_cons] at hp
              exact absurd hp.2.1 (by simp)
            | cons z p =>
              simp only [List.cons_append, List.cons_prefix_cons] at hp
              obtain ⟨rfl, rfl, hp3⟩ := hp
              exact h2 n e ⟨p, hp3, by simpa using hpe⟩
    · obtain ⟨c, hc, h1, h2⟩ := ih h
      have hloop : serviceDeleteLoop E del rs (x :: l) h = serviceDeleteLoop E del rs l h := by
        simp only [serviceDeleteLoop, hx, ne_eq, not_false_eq_true, if_true]
      refine ⟨c, by rw [hloop, hc], ?_, ?_⟩
      · intro e he
        rw [hloop] at he
        obtain ⟨s, hs, hrest⟩ := h1 e he
        exact ⟨s, List.mem_cons_of_mem _ hs, hrest⟩
      · intro n e hf
        rw [hloop]
        exact h2 n e hf

/-- The first loop of the Database step returns an error exactly when one of its
`DeleteStack` calls, made on a matched stack, returned that error. -/
theorem dbDeleteLoop_failed (E : String) (del : StackDeleter)
    (l : List Stack) (h : List Call) :
    ∃ c, (dbDeleteLoop E del l h).2 = h ++ c ∧
      (∀ e, (dbDeleteLoop E del l h).1 = some e →
        ∃ s ∈ l, s.tag "environment" = E ∧ DeleteFailed del h c s.Name e) ∧
      (∀ n e, DeleteFailed del h c n e → (dbDeleteLoop E del l h).1 = some e) := by
  induction l generalizing h with
  | nil =>
    refine ⟨[], by simp [dbDeleteLoop], by simp [dbDeleteLoop], ?_⟩
    rintro n e ⟨p, hp, _⟩
    have := hp.length_le
    simp at this
  | cons x l ih =>
    by_cases hx : x.tag "environment" = E
    · cases hd : del h x.Name with
      | some e1 =>
        refine ⟨[Call.DeleteStack x.Name], by simp [dbDeleteLoop, hx, hd], ?_, ?_⟩
        · intro e he
          simp only [dbDeleteLoop, hx, hd, ne_eq, not_true_eq_false, if_false,
            Option.some.injEq] at he
          subst he
          exact ⟨x, List.mem_cons_self _ _, hx, [], by simp, by simpa using hd⟩
        · rintro n e ⟨p, hp, hpe⟩
          cases p with
          | nil =>
            simp only [List.nil_append, List.cons_prefix_cons, Call.DeleteStack.injEq] at hp
            simp only [List.append_nil] at hpe
            rw [hp.1, hd] at hpe
            simp only [dbDeleteLoop, hx, hd, ne_eq, not_true_eq_false, if_false]
            exact hpe
          | cons z p =>
            have := hp.length_le
            simp at this
      | none =>
        obtain ⟨c, hc, h1, h2⟩ := ih (h ++ [Call.DeleteStack x.Name])
        have hloop : dbDeleteLoop E del (x :: l) h =
            dbDeleteLoop E del l (h ++ [Call.DeleteStack x.Name]) := by
          simp only [dbDeleteLoop, hx, hd, ne_eq, not_true_eq_false, if_false]
        refine ⟨Call.DeleteStack x.Name :: c, by rw [hloop, hc]; simp, ?_, ?_⟩
        · intro e he
          rw [hloop] at he
          obtain ⟨s, hs, hsE, p, hp, hpe⟩ := h1 e he
          refine ⟨s, List.mem_cons_of_mem _ hs, hsE, Call.DeleteStack x.Name :: p, ?_, ?_⟩
          · simp only [List.cons_append, List.cons_prefix_cons, true_and]
            exact hp
          · simpa using hpe
        · rintro n e ⟨p, hp, hpe⟩
          rw [hloop]
          cases p with
          | nil =>
            simp only [List.nil_append, List.cons_prefix_cons, Call.DeleteStack.injEq] at hp
            rw [← hp.1] at hd
            simp only [List.append_nil] at hpe
            rw [hd] at hpe
            exact absurd hpe (by simp)
          | cons y p =>
            simp only [List.cons_append, List.cons_prefix_cons] at hp
            obtain ⟨rfl, hp3⟩ := hp
            exact h2 n e ⟨p, hp3, by simpa using hpe⟩
    · obtain ⟨c, hc, h1, h2⟩ := ih h
      have hloop : dbDeleteLoop E del (x :: l) h = dbDeleteLoop E del l h := by
        simp only [dbDeleteLoop, hx, ne_eq, not_false_eq_true, if_true]
      refine ⟨c, by rw [hloop, hc], ?_, ?_⟩
      · intro e he
        rw [hloop] at he
        obtain ⟨s, hs, hrest⟩ := h1 e he
        exact ⟨s, List.mem_cons_of_mem _ hs, hrest⟩
      · intro n e hf
        rw [hloop]
        exact h2 n e hf

theorem deleteFailed_listStacks_cons (del : StackDeleter) (h c : List Call) (t : StackType)
    (n : String) (e : GoError) :
    DeleteFailed del h (Call.ListStacks t :: c) n e ↔
      DeleteFailed del (h ++ [Call.ListStacks t]) c n e := by
  constructor
  · rintro ⟨p, hp, hpe⟩
    cases p with
    | nil =>
      simp only [List.nil_append, List.cons_prefix_cons] at hp
      exact absurd hp.1 (by simp)
    | cons y p =>
      simp only [List.cons_append, List.cons_prefix_cons] at hp
      obtain ⟨rfl, hp2⟩ := hp
      exact ⟨p, hp2, by simpa using hpe⟩
  · rintro ⟨p, hp, hpe⟩
    refine ⟨Call.ListStacks t :: p, ?_, by simpa using hpe⟩
    simp only [List.cons_append, List.cons_prefix_cons, true_and]
    exact hp

theorem deleteFailed_append_waitCalls (del : StackDeleter) (h c : List Call) (l : List Stack)
    (n : String) (e : GoError) (hf : DeleteFailed del h (c ++ waitCalls l) n e) :
    DeleteFailed del h c n e := by
  obtain ⟨p, hp, hpe⟩ := hf
  exact ⟨p, prefix_of_not_mem_right _ c _ p (deleteStack_not_mem_waitCalls n l) hp, hpe⟩

/-- The Service step returns an error exactly when the listing failed with that
error or one of its `DeleteStack` calls on a matched stack returned it. -/
theorem environmentServiceTerminator_error_iff (E : String) (lister : StackLister)
    (del : StackDeleter) (w : StackWaiter) (rs : RolesetDeleter) (h : List Call) (e : GoError) :
    (environmentServiceTerminator E lister del w rs h).1 = some e ↔
      (lister h StackType.StackTypeService = Except.error e ∨
        ∃ listing, lister h StackType.StackTypeService = Except.ok listing ∧
          ∃ s ∈ listing, s.tag "environment" = E ∧
            DeleteFailed del h (emitted h (environmentServiceTerminator E lister del w rs h).2)
              s.Name e) := by
  unfold environmentServiceTerminator
  cases hl : lister h StackType.StackTypeService with
  | error e0 => simp
  | ok l =>
    obtain ⟨c, hc, h1, h2⟩ := serviceDeleteLoop_failed E del rs l
      (h ++ [Call.ListStacks StackType.StackTypeService])
    rcases hr : serviceDeleteLoop E del rs l
      (h ++ [Call.ListStacks StackType.StackTypeService]) with ⟨r, t⟩
    rw [hr] at hc h1 h2
    simp only at hc h1 h2
    subst hc
    simp only [hr, false_or, Except.ok.injEq, exists_eq_left', reduceCtorEq]
    cases r with
    | some e1 =>
      simp only [List.append_assoc, List.singleton_append, emitted_append,
        deleteFailed_listStacks_cons]
      constructor
      · intro he
        exact h1 e he
      · rintro ⟨s, _, _, hf⟩
        exact h2 s.Name e hf
    | none =>
      simp only [awaitLoop_eq, List.append_assoc, List.singleton_append, emitted_append,
        List.cons_append, deleteFailed_listStacks_cons, reduceCtorEq, false_iff, not_exists,
        not_and]
      intro s _ _ hf
      have := h2 s.Name e (deleteFailed_append_waitCalls del _ c _ s.Name e hf)
      exact absurd this (by simp)

/-- The Database step returns an error exactly when the listing failed with that
error or one of its `DeleteStack` calls on a matched stack returned it. -/
theorem environmentDbTerminator_error_iff (E : String) (lister : StackLister)
    (del : StackDeleter) (w : StackWaiter) (h : List Call) (e : GoError) :
    (environmentDbTerminator E lister del w h).1 = some e ↔
      (lister h StackType.StackTypeDatabase = Except.error e ∨
        ∃ listing, lister h StackType.StackTypeDatabase = Except.ok listing ∧
          ∃ s ∈ listing, s.tag "environment" = E ∧
            DeleteFailed del h (emitted h (environmentDbTerminator E lister del w h).2)
              s.Name e) := by
  unfold environmentDbTerminator
  cases hl : lister h StackType.StackTypeDatabase with
  | error e0 => simp
  | ok l =>
    obtain ⟨c, hc, h1, h2⟩ := dbDeleteLoop_failed E del l
      (h ++ [Call.ListStacks StackType.StackTypeDatabase])
    rcases hr : dbDeleteLoop E del l
      (h ++ [Call.ListStacks StackType.StackTypeDatabase]) with ⟨r, t⟩
    rw [hr] at hc h1 h2
    simp only at hc h1 h2
    subst hc
    simp only [hr, false_or, Except.ok.injEq, exists_eq_left', reduceCtorEq]
    cases r with
    | some e1 =>
      simp only [List.append_assoc, List.singleton_append, emitted_append,
        deleteFailed_listStacks_cons]
      constructor
      · intro he
        exact h1 e he
      · rintro ⟨s, _, _, hf⟩
        exact h2 s.Name e hf
    | none =>
      simp only [awaitLoop_eq, List.append_assoc, List.singleton_append, emitted_append,
        List.cons_append, deleteFailed_listStacks_cons, reduceCtorEq, false_iff, not_exists,
        not_and]
      intro s _ _ hf
      have := h2 s.Name e (deleteFailed_append_waitCalls del _ c _ s.Name e hf)
      exact absurd this (by simp)

/-- The result of the Service step does not depend on the waiter. -/
theorem environmentServiceTerminator_result_waiter (E : String) (lister : StackLister)
    (del : StackDeleter) (w w2 : StackWaiter) (rs : RolesetDeleter) (h : List Call) :
    (environmentServiceTerminator E lister del w2 rs h).1 =
      (environmentServiceTerminator E lister del w rs h).1 := by
  unfold environmentServiceTerminator
  cases lister h StackType.StackTypeService with
  | error e0 => rfl
  | ok l =>
    rcases hr : serviceDeleteLoop E del rs l
      (h ++ [Call.ListStacks StackType.StackTypeService]) with ⟨r, t⟩
    cases r <;> simp only [hr]

/-- The result of the Database step does not depend on the waiter. -/
theorem environmentDbTerminator_result_waiter (E : String) (lister : StackLister)
    (del : StackDeleter) (w w2 : StackWaiter) (h : List Call) :
    (environmentDbTerminator E lister del w2 h).1 =
      (environmentDbTerminator E lister del w h).1 := by
  unfold environmentDbTerminator
  cases lister h StackType.StackTypeDatabase with
  | error e0 => rfl
  | ok l =>
    rcases hr : dbDeleteLoop E del l
      (h ++ [Call.ListStacks StackType.StackTypeDatabase]) with ⟨r, t⟩
    cases r <;> simp only [hr]

/-- C10. The Service step and the Database step return the error `e` if and only
if `ListStacks` failed with `e` or one of the `DeleteStack` calls of the run, made
on a matched stack of the listing, returned `e`.  Their result is the same for
any two waiters, and they return no error when the listing and every
`DeleteStack` call succeed, whatever status the waits report. -/
theorem C10_status_never_classified (E : String) (lister : StackLister) (del : StackDeleter)
    (w w2 : StackWaiter) (rs : RolesetDeleter) (h : List Call) (e : GoError) :
    ((environmentServiceTerminator E lister del w rs h).1 = some e ↔
      (lister h StackType.StackTypeService = Except.error e ∨
        ∃ listing, lister h StackType.StackTypeService = Except.ok listing ∧
          ∃ s ∈ listing, s.tag "environment" = E ∧
            DeleteFailed del h (emitted h (environmentServiceTerminator E lister del w rs h).2)
              s.Name e)) ∧
    ((environmentDbTerminator E lister del w h).1 = some e ↔
      (lister h StackType.StackTypeDatabase = Except.error e ∨
        ∃ listing, lister h StackType.StackTypeDatabase = Except.ok listing ∧
          ∃ s ∈ listing, s.tag "environment" = E ∧
            DeleteFailed del h (emitted h (environmentDbTerminator E lister del w h).2)
              s.Name e)) ∧
    (environmentServiceTerminator E lister del w2 rs h).1 =
      (environmentServiceTerminator E lister del w rs h).1 ∧
    (environmentDbTerminator E lister del w2 h).1 =
      (environmentDbTerminator E lister del w h).1 ∧
    ((∃ listing, lister h StackType.StackTypeService = Except.ok listing) →
      (∀ h1 n, del h1 n = none) →
      (environmentServiceTerminator E lister del w rs h).1 = none) ∧
    ((∃ listing, lister h StackType.StackTypeDatabase = Except.ok listing) →
      (∀ h1 n, del h1 n = none) →
      (environmentDbTerminator E lister del w h).1 = none) := by
  refine ⟨environmentServiceTerminator_error_iff E lister del w rs h e,
    environmentDbTerminator_error_iff E lister del w h e,
    environmentServiceTerminator_result_waiter E lister del w w2 rs h,
    environmentDbTerminator_result_waiter E lister del w w2 h, ?_, ?_⟩
  · rintro ⟨listing, hl⟩ hdel
    rw [environmentServiceTerminator_ok E lister del w rs h listing hl hdel]
  · rintro ⟨listing, hl⟩ hdel
    rw [environmentDbTerminator_ok E lister del w h listing hl hdel]

/-- The filtered steps run against a waiter that reports every stack in
`DELETE_FAILED`: both return no error. -/
theorem filtered_steps_ignore_delete_failed :
    environmentServiceTerminator "dev" devLister calmDeleter (fixedWaiter failedStack)
        quietRoles [] =
      (none, [Call.ListStacks StackType.StackTypeService,
        Call.DeleteStack "mu-service-web-dev", Call.DeleteServiceRoleset "dev" "web",
        Call.DeleteStack "mu-service-api-dev", Call.DeleteServiceRoleset "dev" "api",
        Call.AwaitFinalStatus "mu-service-web-dev",
        Call.AwaitFinalStatus "mu-service-api-dev"]) ∧
    environmentDbTerminator "dev" devLister calmDeleter (fixedWaiter failedStack) [] =
      (none, [Call.ListStacks StackType.StackTypeDatabase,
        Call.DeleteStack "mu-database-web-dev",
        Call.AwaitFinalStatus "mu-database-web-dev"]) := by
  decide

/-! ## C11: the Network step discards the errors of `DeleteStack` -/

/-- C11. The outcome of `environmentVpcTerminator` (result and call log) is the
same for any two deleters; it is the same even for two waiters, as long as they
give the same answer to the wait on the network stack name and to the wait on
the target stack name.  The result is the status check of the first wait and,
when that check passes, the status check of the second wait: what `DeleteStack`
returns never enters it. -/
theorem C11_delete_errors_discarded (N : StackNamer) (ns E : String)
    (del1 del2 : StackDeleter) (w w2 : StackWaiter) (h : List Call) :
    environmentVpcTerminator N ns E del1 w h = environmentVpcTerminator N ns E del2 w h ∧
    (w (h ++ [Call.DeleteStack (N ns StackType.StackTypeVpc [E])])
        (N ns StackType.StackTypeVpc [E]) =
      w2 (h ++ [Call.DeleteStack (N ns StackType.StackTypeVpc [E])])
        (N ns StackType.StackTypeVpc [E]) →
     w (h ++ [Call.DeleteStack (N ns StackType.StackTypeVpc [E]),
          Call.AwaitFinalStatus (N ns StackType.StackTypeVpc [E]),
          Call.DeleteStack (N ns StackType.StackTypeTarget [E])])
        (N ns StackType.StackTypeTarget [E]) =
      w2 (h ++ [Call.DeleteStack (N ns StackType.StackTypeVpc [E]),
          Call.AwaitFinalStatus (N ns StackType.StackTypeVpc [E]),
          Call.DeleteStack (N ns StackType.StackTypeTarget [E])])
        (N ns StackType.StackTypeTarget [E]) →
     environmentVpcTerminator N ns E del1 w h = environmentVpcTerminator N ns E del2 w2 h) ∧
    (environmentVpcTerminator N ns E del1 w h).1 =
      (match checkStatus (w (h ++ [Call.DeleteStack (N ns StackType.StackTypeVpc [E])])
          (N ns StackType.StackTypeVpc [E])) with
       | some err => some err
       | none =>
         checkStatus (w (h ++ [Call.DeleteStack (N ns StackType.StackTypeVpc [E]),
             Call.AwaitFinalStatus (N ns StackType.StackTypeVpc [E]),
             Call.DeleteStack (N ns StackType.StackTypeTarget [E])])
           (N ns StackType.StackTypeTarget [E]))) := by
  refine ⟨?_, ?_, ?_⟩
  · simp only [environmentVpcTerminator_eq, vpcTargetPhase_eq]
  · intro hv ht
    simp only [environmentVpcTerminator_eq, vpcTargetPhase_eq, List.append_assoc,
      List.cons_append, List.nil_append, hv, ht]
  · simp only [environmentVpcTerminator_eq, vpcTargetPhase_eq, List.append_assoc,
      List.cons_append, List.nil_append]
    cases checkStatus (w (h ++ [Call.DeleteStack (N ns StackType.StackTypeVpc [E])])
      (N ns StackType.StackTypeVpc [E])) <;> rfl

/-- The Network step with a deleter that always succeeds and with a deleter that
always fails, against the same waiter: the same error in one case, the same
success in the other. -/
theorem vpc_step_same_outcome_example :
    environmentVpcTerminator dashName "mu" "dev" calmDeleter (fixedWaiter failedStack) [] =
      environmentVpcTerminator dashName "mu" "dev" deniedDeleter (fixedWaiter failedStack) [] ∧
    environmentVpcTerminator dashName "mu" "dev" calmDeleter goneWaiter [] =
      (none, [Call.DeleteStack "mu-vpc-dev", Call.AwaitFinalStatus "mu-vpc-dev",
        Call.DeleteStack "mu-target-dev", Call.AwaitFinalStatus "mu-target-dev"]) ∧
    environmentVpcTerminator dashName "mu" "dev" deniedDeleter goneWaiter [] =
      (none, [Call.DeleteStack "mu-vpc-dev", Call.AwaitFinalStatus "mu-vpc-dev",
        Call.DeleteStack "mu-target-dev", Call.AwaitFinalStatus "mu-target-dev"]) := by
  decide

/-! ## C12: the two passes of the filtered steps -/

/-- In a log made of a part without `AwaitFinalStatus` calls followed by a part
without `DeleteStack` calls, no `DeleteStack` call comes after an
`AwaitFinalStatus` call. -/
theorem no_delete_after_await (first second a b : List Call) (n m : String)
    (hfirst : awaitCalls first = []) (hsecond : deleteCalls second = [])
    (heq : first ++ second = a ++ Call.AwaitFinalStatus n :: b) :
    Call.DeleteStack m ∉ b := by
  have hno : Call.AwaitFinalStatus n ∉ first := by
    intro hmem
    have := (mem_awaitCalls n first).2 hmem
    rw [hfirst] at this
    simp at this
  obtain ⟨a1, ha1⟩ := prefix_of_split first second a b (Call.AwaitFinalStatus n) hno heq
  rw [← ha1, List.append_assoc] at heq
  have hsec : second = a1 ++ Call.AwaitFinalStatus n :: b := List.append_cancel_left heq
  intro hmem
  have : m ∈ deleteCalls second := by
    rw [mem_deleteCalls, hsec]
    simp [hmem]
  rw [hsecond] at this
  simp at this

/-- C12. When the lister and every `DeleteStack` call succeed, the calls of the
Service step and of the Database step are the listing, then a first pass that
holds one `DeleteStack` call per matched stack (in the Service step each followed
by its `DeleteServiceRoleset` call) and no `AwaitFinalStatus` call, then a second
pass that holds exactly one `AwaitFinalStatus` call per matched stack.  The names
waited on are the names deleted, in the same (listing) order, and no
`DeleteStack` call comes after an `AwaitFinalStatus` call. -/
theorem C12_two_pass (E : String) (lister : StackLister) (del : StackDeleter)
    (w : StackWaiter) (rs : RolesetDeleter) (h : List Call) (services databases : List Stack)
    (hsvc : lister h StackType.StackTypeService = Except.ok services)
    (hdb : lister h StackType.StackTypeDatabase = Except.ok databases)
    (hdel : ∀ h1 n, del h1 n = none) :
    (emitted h (environmentServiceTerminator E lister del w rs h).2 =
        (Call.ListStacks StackType.StackTypeService :: serviceCalls E (matched E services)) ++
          waitCalls (matched E services) ∧
      awaitCalls (Call.ListStacks StackType.StackTypeService ::
        serviceCalls E (matched E services)) = [] ∧
      deleteCalls (Call.ListStacks StackType.StackTypeService ::
        serviceCalls E (matched E services)) = (matched E services).map Stack.Name ∧
      waitCalls (matched E services) =
        (matched E services).map (fun s => Call.AwaitFinalStatus s.Name) ∧
      awaitCalls (emitted h (environmentServiceTerminator E lister del w rs h).2) =
        deleteCalls (emitted h (environmentServiceTerminator E lister del w rs h).2) ∧
      (∀ a b n m, emitted h (environmentServiceTerminator E lister del w rs h).2 =
          a ++ Call.AwaitFinalStatus n :: b → Call.DeleteStack m ∉ b)) ∧
    (emitted h (environmentDbTerminator E lister del w h).2 =
        (Call.ListStacks StackType.StackTypeDatabase :: dbCalls (matched E databases)) ++
          waitCalls (matched E databases) ∧
      awaitCalls (Call.ListStacks StackType.StackTypeDatabase ::
        dbCalls (matched E databases)) = [] ∧
      deleteCalls (Call.ListStacks StackType.StackTypeDatabase ::
        dbCalls (matched E databases)) = (matched E databases).map Stack.Name ∧
      waitCalls (matched E databases) =
        (matched E databases).map (fun s => Call.AwaitFinalStatus s.Name) ∧
      awaitCalls (emitted h (environmentDbTerminator E lister del w h).2) =
        deleteCalls (emitted h (environmentDbTerminator E lister del w h).2) ∧
      (∀ a b n m, emitted h (environmentDbTerminator E lister del w h).2 =
          a ++ Call.AwaitFinalStatus n :: b → Call.DeleteStack m ∉ b)) := by
  have e1 : emitted h (environmentServiceTerminator E lister del w rs h).2 =
      (Call.ListStacks StackType.StackTypeService :: serviceCalls E (matched E services)) ++
        waitCalls (matched E services) := by
    rw [environmentServiceTerminator_ok E lister del w rs h services hsvc hdel]
    simp [emitted_append]
  have e2 : emitted h (environmentDbTerminator E lister del w h).2 =
      (Call.ListStacks StackType.StackTypeDatabase :: dbCalls (matched E databases)) ++
        waitCalls (matched E databases) := by
    rw [environmentDbTerminator_ok E lister del w h databases hdb hdel]
    simp [emitted_append]
  have a1 : awaitCalls (Call.ListStacks StackType.StackTypeService ::
      serviceCalls E (matched E services)) = [] := by
    simp [awaitCalls, awaitCalls_serviceCalls]
  have a2 : awaitCalls (Call.ListStacks StackType.StackTypeDatabase ::
      dbCalls (matched E databases)) = [] := by
    simp [awaitCalls, awaitCalls_dbCalls]
  have d1 : deleteCalls (Call.ListStacks StackType.StackTypeService ::
      serviceCalls E (matched E services)) = (matched E services).map Stack.Name := by
    simp [deleteCalls, deleteCalls_serviceCalls]
  have d2 : deleteCalls (Call.ListStacks StackType.StackTypeDatabase ::
      dbCalls (matched E databases)) = (matched E databases).map Stack.Name := by
    simp [deleteCalls, deleteCalls_dbCalls]
  refine ⟨⟨e1, a1, d1, rfl, ?_, ?_⟩, ⟨e2, a2, d2, rfl, ?_, ?_⟩⟩
  · rw [e1, awaitCalls_append, deleteCalls_append, a1, d1, awaitCalls_waitCalls,
      deleteCalls_waitCalls]
    simp
  · intro a b n m heq
    rw [e1] at heq
    exact no_delete_after_await _ _ a b n m a1 (deleteCalls_waitCalls _) heq
  · rw [e2, awaitCalls_append, deleteCalls_append, a2, d2, awaitCalls_waitCalls,
      deleteCalls_waitCalls]
    simp
  · intro a b n m heq
    rw [e2] at heq
    exact no_delete_after_await _ _ a b n m a2 (deleteCalls_waitCalls _) heq

/-- Witness of C12: environment `dev` against a listing that holds the `dev`
services `web` and `api` and a `prod` stack between them. -/
theorem C12_two_pass_witness :
    emitted [] (environmentServiceTerminator "dev" (constLister [webStack, prodStack, apiStack])
        calmDeleter goneWaiter quietRoles []).2 =
      [Call.ListStacks StackType.StackTypeService,
       Call.DeleteStack "mu-service-web-dev", Call.DeleteServiceRoleset "dev" "web",
       Call.DeleteStack "mu-service-api-dev", Call.DeleteServiceRoleset "dev" "api",
       Call.AwaitFinalStatus "mu-service-web-dev", Call.AwaitFinalStatus "mu-service-api-dev"] ∧
    emitted [] (environmentDbTerminator "dev" (constLister [webStack, prodStack, apiStack])
        calmDeleter goneWaiter []).2 =
      [Call.ListStacks StackType.StackTypeDatabase,
       Call.DeleteStack "mu-service-web-dev", Call.DeleteStack "mu-service-api-dev",
       Call.AwaitFinalStatus "mu-service-web-dev", Call.AwaitFinalStatus "mu-service-api-dev"] := by
  have hall := C12_two_pass "dev" (constLister [webStack, prodStack, apiStack]) calmDeleter
    goneWaiter quietRoles [] [webStack, prodStack, apiStack] [webStack, prodStack, apiStack]
    rfl rfl (fun _ _ => rfl)
  exact ⟨hall.1.1.trans (by decide), hall.2.1.trans (by decide)⟩

/-! ## C13: roleset cleanup inside the Service step -/

/-- In the first loop of the Service step, a `DeleteStack` call that succeeded is
on a matched stack and is followed at once by the `DeleteServiceRoleset` call of
that stack, and every `DeleteServiceRoleset` call comes right after a
`DeleteStack` call that succeeded, with the arguments of the stack deleted. -/
theorem serviceDeleteLoop_roleset (E : String) (del : StackDeleter) (rs : RolesetDeleter)
    (l : List Stack) (h : List Call) :
    ∃ c, (serviceDeleteLoop E del rs l h).2 = h ++ c ∧
      (∀ a b n, c = a ++ Call.DeleteStack n :: b → del (h ++ a) n = none →
        ∃ s ∈ l, s.tag "environment" = E ∧ s.Name = n ∧
          ∃ b1, b = Call.DeleteServiceRoleset E (s.tag "service") :: b1) ∧
      (∀ a b env svc, c = a ++ Call.DeleteServiceRoleset env svc :: b →
        ∃ a1 s, a = a1 ++ [Call.DeleteStack s.Name] ∧ s ∈ l ∧ s.tag "environment" = E ∧
          env = E ∧ svc = s.tag "service" ∧ del (h ++ a1) s.Name = none) := by
  induction l generalizing h with
  | nil =>
    refine ⟨[], by simp [serviceDeleteLoop], ?_, ?_⟩
    · intro a b n heq
      simp at heq
    · intro a b env svc heq
      simp at heq
  | cons x l ih =>
    by_cases hx : x.tag "environment" = E
    · cases hd : del h x.Name with
      | some e1 =>
        refine ⟨[Call.DeleteStack x.Name], by simp [serviceDeleteLoop, hx, hd], ?_, ?_⟩
        · intro a b n heq hok
          cases a with
          | nil =>
            simp only [List.nil_append, List.cons.injEq, Call.DeleteStack.injEq] at heq
            rw [← heq.1, List.append_nil, hd] at hok
            exact absurd hok (by simp)
          | cons y a =>
            simp only [List.cons_append, List.cons.injEq] at heq
            have := heq.2
            simp at this
        · intro a b env svc heq
          cases a with
          | nil => simp at heq
          | cons y a =>
            simp only [List.cons_append, List.cons.injEq] at heq
            have := heq.2
            simp at this
      | none =>
        obtain ⟨c, hc, h1, h2⟩ := ih (h ++ [Call.DeleteStack x.Name] ++
          [Call.DeleteServiceRoleset E (x.tag "service")])
        have hloop : serviceDeleteLoop E del rs (x :: l) h =
            serviceDeleteLoop E del rs l (h ++ [Call.DeleteStack x.Name] ++
              [Call.DeleteServiceRoleset E (x.tag "service")]) := by
          simp only [serviceDeleteLoop, hx, hd, ne_eq, not_true_eq_false, if_false]
        refine ⟨Call.DeleteStack x.Name :: Call.DeleteServiceRoleset E (x.tag "service") :: c,
          by rw [hloop, hc]; simp, ?_, ?_⟩
        · intro a b n heq hok
          cases a with
          | nil =>
            simp only [List.nil_append, List.cons.injEq, Call.DeleteStack.injEq] at heq
            exact ⟨x, List.mem_cons_self _ _, hx, heq.1, c, heq.2.symm⟩
          | cons y a =>
            cases a with
            | nil =>
              simp only [List.cons_append, List.nil_append, List.cons.injEq] at heq
              exact absurd heq.2.1 (by simp)
            | cons z a =>
              simp only [List.cons_append, List.cons.injEq] at heq
              obtain ⟨rfl, rfl, heq3⟩ := heq
              obtain ⟨s, hs, hrest⟩ := h1 a b n heq3 (by simpa using hok)
              exact ⟨s, List.mem_cons_of_mem _ hs, hrest⟩
        · intro a b env svc heq
          cases a with
          | nil =>
            simp only [List.nil_append, List.cons.injEq] at heq
            exact absurd heq.1 (by simp)
          | cons y a =>
            cases a with
            | nil =>
              simp only [List.cons_append, List.nil_append, List.cons.injEq,
                Call.DeleteServiceRoleset.injEq] at heq
              obtain ⟨rfl, ⟨henv, hsvc⟩, _⟩ := heq
              exact ⟨[], x, rfl, List.mem_cons_self _ _, hx, henv.symm, hsvc.symm,
                by simpa using hd⟩
            | cons z a =>
              simp only [List.cons_append, List.cons.injEq] at heq
              obtain ⟨rfl, rfl, heq3⟩ := heq
              obtain ⟨a1, s, ha1, hs, hsE, henv, hsvc, hok⟩ := h2 a b env svc heq3
              refine ⟨Call.DeleteStack x.Name ::
                Call.DeleteServiceRoleset E (x.tag "service") :: a1, s, ?_,
                List.mem_cons_of_mem _ hs, hsE, henv, hsvc, by simpa using hok⟩
              rw [ha1]; simp
    · obtain ⟨c, hc, h1, h2⟩ := ih h
      have hloop : serviceDeleteLoop E del rs (x :: l) h = serviceDeleteLoop E del rs l h := by
        simp only [serviceDeleteLoop, hx, ne_eq, not_false_eq_true, if_true]
      refine ⟨c, by rw [hloop, hc], ?_, ?_⟩
      · intro a b n heq hok
        obtain ⟨s, hs, hrest⟩ := h1 a b n heq hok
        exact ⟨s, List.mem_cons_of_mem _ hs, hrest⟩
      · intro a b env svc heq
        obtain ⟨a1, s, ha1, hs, hrest⟩ := h2 a b env svc heq
        exact ⟨a1, s, ha1, List.mem_cons_of_mem _ hs, hrest⟩

/-- The first loop of the Service step does not depend on the roleset manager. -/
theorem serviceDeleteLoop_roleset_irrelevant (E : String) (del : StackDeleter)
    (rs rs2 : RolesetDeleter) (l : List Stack) (h : List Call) :
    serviceDeleteLoop E del rs2 l h = serviceDeleteLoop E del rs l h := by
  induction l generalizing h with
  | nil => rfl
  | cons x l ih =>
    by_cases hx : x.tag "environment" = E
    · cases hd : del h x.Name with
      | some e1 => simp only [serviceDeleteLoop, hx, hd, ne_eq, not_true_eq_false, if_false]
      | none => simp only [serviceDeleteLoop, hx, hd, ne_eq, not_true_eq_false, if_false, ih]
    · simp only [serviceDeleteLoop, hx, ne_eq, not_false_eq_true, if_true, ih]

/-- A call that does not occur in `tail` and occurs in `c ++ tail` occurs in `c`. -/
theorem split_in_left (x : Call) (c tail a b : List Call) (hx : x ∉ tail)
    (heq : c ++ tail = a ++ x :: b) : ∃ b0, c = a ++ x :: b0 ∧ b = b0 ++ tail := by
  rcases List.append_eq_append_iff.1 heq with ⟨a1, _, ht⟩ | ⟨c1, hc, hxb⟩
  · exact absurd (by rw [ht]; simp) hx
  · cases c1 with
    | nil =>
      simp only [List.nil_append] at hxb
      exact absurd (by rw [← hxb]; simp) hx
    | cons y c1 =>
      simp only [List.cons_append, List.cons.injEq] at hxb
      exact ⟨c1, by rw [hc, hxb.1], hxb.2⟩

theorem deleteServiceRoleset_not_mem_waitCalls (env svc : String) (l : List Stack) :
    Call.DeleteServiceRoleset env svc ∉ waitCalls l := by
  simp [waitCalls]

/-- The calls of the Service step after a successful listing: the listing, the
calls of the first loop and a tail made of `AwaitFinalStatus` calls only. -/
theorem environmentServiceTerminator_calls (E : String) (lister : StackLister)
    (del : StackDeleter) (w : StackWaiter) (rs : RolesetDeleter) (h : List Call)
    (listing : List Stack) (hlist : lister h StackType.StackTypeService = Except.ok listing) :
    ∃ c tail, (serviceDeleteLoop E del rs listing
        (h ++ [Call.ListStacks StackType.StackTypeService])).2 =
          h ++ [Call.ListStacks StackType.StackTypeService] ++ c ∧
      emitted h (environmentServiceTerminator E lister del w rs h).2 =
        Call.ListStacks StackType.StackTypeService :: (c ++ tail) ∧
      (∀ n, Call.DeleteStack n ∉ tail) ∧ (∀ env svc, Call.DeleteServiceRoleset env svc ∉ tail) := by
  obtain ⟨c, hc⟩ := serviceDeleteLoop_extends E del rs listing
    (h ++ [Call.ListStacks StackType.StackTypeService])
  rcases hr : serviceDeleteLoop E del rs listing
    (h ++ [Call.ListStacks StackType.StackTypeService]) with ⟨r, t⟩
  rw [hr] at hc
  simp only at hc
  subst hc
  cases r with
  | some e =>
    refine ⟨c, [], rfl, ?_, by simp, by simp⟩
    simp only [environmentServiceTerminator, hlist, hr, List.append_assoc, List.singleton_append,
      List.append_nil, emitted_append]
  | none =>
    refine ⟨c, waitCalls (matched E listing), rfl, ?_,
      fun n => deleteStack_not_mem_waitCalls n _,
      fun env svc => deleteServiceRoleset_not_mem_waitCalls env svc _⟩
    simp only [environmentServiceTerminator, hlist, hr, awaitLoop_eq, List.append_assoc,
      List.singleton_append, emitted_append, List.cons_append, List.nil_append]

/-- C13. In a run of `environmentServiceTerminator` whose listing succeeded: every
`DeleteStack` call that returned no error is on a matched stack `S` and the very
next call is `DeleteServiceRoleset(E, S.Tags["service"])`; every
`DeleteServiceRoleset` call of the run comes right after such a successful
`DeleteStack` call on a matched stack and bears its arguments, so there is none
for an unmatched stack or after a failed delete; and the outcome of the step
(result and call log) is the same whatever the roleset manager returns. -/
theorem C13_service_roleset (E : String) (lister : StackLister) (del : StackDeleter)
    (w : StackWaiter) (rs rs2 : RolesetDeleter) (h : List Call) (listing : List Stack)
    (hlist : lister h StackType.StackTypeService = Except.ok listing) :
    (∀ a b n, emitted h (environmentServiceTerminator E lister del w rs h).2 =
        a ++ Call.DeleteStack n :: b → del (h ++ a) n = none →
      ∃ s ∈ listing, s.tag "environment" = E ∧ s.Name = n ∧
        ∃ b1, b = Call.DeleteServiceRoleset E (s.tag "service") :: b1) ∧
    (∀ a b env svc, emitted h (environmentServiceTerminator E lister del w rs h).2 =
        a ++ Call.DeleteServiceRoleset env svc :: b →
      ∃ a1 s, a = a1 ++ [Call.DeleteStack s.Name] ∧ s ∈ listing ∧
        s.tag "environment" = E ∧ env = E ∧ svc = s.tag "service" ∧
        del (h ++ a1) s.Name = none) ∧
    environmentServiceTerminator E lister del w rs2 h =
      environmentServiceTerminator E lister del w rs h := by
  obtain ⟨c, tail, hc, hem, hnoD, hnoR⟩ :=
    environmentServiceTerminator_calls E lister del w rs h listing hlist
  obtain ⟨c1, hc1, h1, h2⟩ := serviceDeleteLoop_roleset E del rs listing
    (h ++ [Call.ListStacks StackType.StackTypeService])
  have hcc : c1 = c := List.append_cancel_left (hc1.symm.trans hc)
  subst hcc
  refine ⟨?_, ?_, ?_⟩
  · intro a b n heq hok
    rw [hem] at heq
    cases a with
    | nil =>
      simp only [List.nil_append, List.cons.injEq] at heq
      exact absurd heq.1 (by simp)
    | cons y a =>
      simp only [List.cons_append, List.cons.injEq] at heq
      obtain ⟨rfl, heq2⟩ := heq
      obtain ⟨b0, hcb, hb⟩ := split_in_left _ c1 tail a b (hnoD n) heq2
      obtain ⟨s, hs, hsE, hsn, b1, hb1⟩ := h1 a b0 n hcb (by simpa using hok)
      exact ⟨s, hs, hsE, hsn, b1 ++ tail, by rw [hb, hb1]; simp⟩
  · intro a b env svc heq
    rw [hem] at heq
    cases a with
    | nil =>
      simp only [List.nil_append, List.cons.injEq] at heq
      exact absurd heq.1 (by simp)
    | cons y a =>
      simp only [List.cons_append, List.cons.injEq] at heq
      obtain ⟨rfl, heq2⟩ := heq
      obtain ⟨b0, hcb, _⟩ := split_in_left _ c1 tail a b (hnoR env svc) heq2
      obtain ⟨a1, s, ha1, hs, hsE, henv, hsvc, hok⟩ := h2 a b0 env svc hcb
      refine ⟨Call.ListStacks StackType.StackTypeService :: a1, s, ?_, hs, hsE, henv, hsvc,
        by simpa using hok⟩
      rw [ha1]; simp
  · simp only [environmentServiceTerminator, hlist,
      serviceDeleteLoop_roleset_irrelevant E del rs rs2]

/-- Witness of C13: the listing holds the `dev` services `web` and `api` and a
`prod` stack, the delete of `api` fails and every call of the roleset manager
fails: one `DeleteServiceRoleset` call, for `web`, right after its delete. -/
theorem C13_service_roleset_witness :
    environmentServiceTerminator "dev" (constLister [webStack, prodStack, apiStack])
        apiThrottledDeleter goneWaiter failingRoles [] =
      (some ⟨"Throttling"⟩,
        [Call.ListStacks StackType.StackTypeService,
         Call.DeleteStack "mu-service-web-dev", Call.DeleteServiceRoleset "dev" "web",
         Call.DeleteStack "mu-service-api-dev"]) ∧
    environmentServiceTerminator "dev" (constLister [webStack, prodStack, apiStack])
        calmDeleter goneWaiter failingRoles [] =
      environmentServiceTerminator "dev" (constLister [webStack, prodStack, apiStack])
        calmDeleter goneWaiter quietRoles [] := by
  refine ⟨by decide, ?_⟩
  exact (C13_service_roleset "dev" (constLister [webStack, prodStack, apiStack])
    calmDeleter goneWaiter quietRoles failingRoles [] [webStack, prodStack, apiStack] rfl).2.2

/-! ## C14: a failed delete aborts the scoped steps -/

/-- C14. In `environmentEcsTerminator`, `environmentConsulTerminator` and
`environmentElbTerminator`, if `DeleteStack` on the computed stack name returns
the error `e`, the step returns exactly `e` and the failed `DeleteStack` call is
its only call; in `serviceUndeployer`, when the first wait found the stack and
`DeleteStack` returns `e`, the step returns exactly `e` and the failed
`DeleteStack` call is its last call.  No `AwaitFinalStatus` call is made after
the failed delete. -/
theorem C14_delete_error_is_hard (N : StackNamer) (ns E serviceName : String)
    (del : StackDeleter) (w : StackWaiter) (h : List Call) (e : GoError) :
    (del h (N ns StackType.StackTypeEnv [E]) = some e →
      environmentEcsTerminator N ns E del w h =
        (some e, h ++ [Call.DeleteStack (N ns StackType.StackTypeEnv [E])]) ∧
      awaitCalls (emitted h (environmentEcsTerminator N ns E del w h).2) = []) ∧
    (del h (N ns StackType.StackTypeConsul [E]) = some e →
      environmentConsulTerminator N ns E del w h =
        (some e, h ++ [Call.DeleteStack (N ns StackType.StackTypeConsul [E])]) ∧
      awaitCalls (emitted h (environmentConsulTerminator N ns E del w h).2) = []) ∧
    (del h (N ns StackType.StackTypeLoadBalancer [E]) = some e →
      environmentElbTerminator N ns E del w h =
        (some e, h ++ [Call.DeleteStack (N ns StackType.StackTypeLoadBalancer [E])]) ∧
      awaitCalls (emitted h (environmentElbTerminator N ns E del w h).2) = []) ∧
    (w h (N ns StackType.StackTypeService [serviceName, E]) ≠ none →
      del (h ++ [Call.AwaitFinalStatus (N ns StackType.StackTypeService [serviceName, E])])
        (N ns StackType.StackTypeService [serviceName, E]) = some e →
      serviceUndeployer N serviceName ns E del w h =
        (some e, h ++ [Call.AwaitFinalStatus (N ns StackType.StackTypeService [serviceName, E]),
          Call.DeleteStack (N ns StackType.StackTypeService [serviceName, E])])) := by
  refine ⟨?_, ?_, ?_, ?_⟩
  · intro hd
    have hrun : environmentEcsTerminator N ns E del w h =
        (some e, h ++ [Call.DeleteStack (N ns StackType.StackTypeEnv [E])]) := by
      rw [environmentEcsTerminator_eq, hd]
    refine ⟨hrun, ?_⟩
    rw [hrun]
    simp only [emitted_append]
    rfl
  · intro hd
    have hrun : environmentConsulTerminator N ns E del w h =
        (some e, h ++ [Call.DeleteStack (N ns StackType.StackTypeConsul [E])]) := by
      rw [environmentConsulTerminator_eq, hd]
    refine ⟨hrun, ?_⟩
    rw [hrun]
    simp only [emitted_append]
    rfl
  · intro hd
    have hrun : environmentElbTerminator N ns E del w h =
        (some e, h ++ [Call.DeleteStack (N ns StackType.StackTypeLoadBalancer [E])]) := by
      rw [environmentElbTerminator_eq, hd]
    refine ⟨hrun, ?_⟩
    rw [hrun]
    simp only [emitted_append]
    rfl
  · intro hpresent hd
    rw [serviceUndeployer_eq]
    cases hfirst : w h (N ns StackType.StackTypeService [serviceName, E]) with
    | none => exact absurd hfirst hpresent
    | some st0 => simp only [hd]

/-- Witness of C14: every delete is denied. -/
theorem C14_delete_error_is_hard_witness :
    environmentEcsTerminator dashName "mu" "dev" deniedDeleter goneWaiter [] =
      (some ⟨"AccessDenied"⟩, [Call.DeleteStack "mu-environment-dev"]) ∧
    environmentConsulTerminator dashName "mu" "dev" deniedDeleter goneWaiter [] =
      (some ⟨"AccessDenied"⟩, [Call.DeleteStack "mu-consul-dev"]) ∧
    environmentElbTerminator dashName "mu" "dev" deniedDeleter goneWaiter [] =
      (some ⟨"AccessDenied"⟩, [Call.DeleteStack "mu-loadbalancer-dev"]) ∧
    serviceUndeployer dashName "web" "mu" "dev" deniedDeleter
        (statusWaiter "CREATE_COMPLETE" "") [] =
      (some ⟨"AccessDenied"⟩,
        [Call.AwaitFinalStatus "mu-service-web-dev", Call.DeleteStack "mu-service-web-dev"]) := by
  have gone := C14_delete_error_is_hard dashName "mu" "dev" "web" deniedDeleter goneWaiter []
    ⟨"AccessDenied"⟩
  have present := C14_delete_error_is_hard dashName "mu" "dev" "web" deniedDeleter
    (statusWaiter "CREATE_COMPLETE" "") [] ⟨"AccessDenied"⟩
  exact ⟨(gone.1 rfl).1.trans (by decide), (gone.2.1 rfl).1.trans (by decide),
    (gone.2.2.1 rfl).1.trans (by decide), (present.2.2.2 (by decide) rfl).trans (by decide)⟩

/-! ## C15: `serviceUndeployer` deletes exactly when the stack is present -/

/-- C15. `serviceUndeployer` first waits on the name
`CreateStackName(namespace, StackTypeService, serviceName, environment)`.  It calls
`DeleteStack` if and only if that first wait returns a stack; it then calls it
exactly once, on the name it waited on, and never on another name.  The stack
returned by the first wait is not looked at: when it is present and the delete
succeeds, the result is the status check of the second wait, and replacing the
answer of the first wait by any other stack leaves the outcome unchanged. -/
theorem C15_undeploy_delete_iff_present (N : StackNamer) (serviceName ns E : String)
    (del : StackDeleter) (w w2 : StackWaiter) (h : List Call) :
    (emitted h (serviceUndeployer N serviceName ns E del w h).2).head? =
      some (Call.AwaitFinalStatus (N ns StackType.StackTypeService [serviceName, E])) ∧
    (w h (N ns StackType.StackTypeService [serviceName, E]) = none →
      deleteCalls (emitted h (serviceUndeployer N serviceName ns E del w h).2) = []) ∧
    (w h (N ns StackType.StackTypeService [serviceName, E]) ≠ none →
      deleteCalls (emitted h (serviceUndeployer N serviceName ns E del w h).2) =
        [N ns StackType.StackTypeService [serviceName, E]]) ∧
    ((∃ n, Call.DeleteStack n ∈ emitted h (serviceUndeployer N serviceName ns E del w h).2) ↔
      w h (N ns StackType.StackTypeService [serviceName, E]) ≠ none) ∧
    (w h (N ns StackType.StackTypeService [serviceName, E]) ≠ none →
      del (h ++ [Call.AwaitFinalStatus (N ns StackType.StackTypeService [serviceName, E])])
        (N ns StackType.StackTypeService [serviceName, E]) = none →
      (serviceUndeployer N serviceName ns E del w h).1 =
        checkStatus (w (h ++ [Call.AwaitFinalStatus
              (N ns StackType.StackTypeService [serviceName, E]),
            Call.DeleteStack (N ns StackType.StackTypeService [serviceName, E])])
          (N ns StackType.StackTypeService [serviceName, E]))) ∧
    (w h (N ns StackType.StackTypeService [serviceName, E]) ≠ none →
      w2 h (N ns StackType.StackTypeService [serviceName, E]) ≠ none →
      (∀ h1 n, h1 ≠ h → w2 h1 n = w h1 n) →
      serviceUndeployer N serviceName ns E del w2 h =
        serviceUndeployer N serviceName ns E del w h) := by
  have hne : h ++ [Call.AwaitFinalStatus (N ns StackType.StackTypeService [serviceName, E]),
      Call.DeleteStack (N ns StackType.StackTypeService [serviceName, E])] ≠ h := by
    intro heq
    have := congrArg List.length heq
    simp at this
  have hcalls : deleteCalls (emitted h (serviceUndeployer N serviceName ns E del w h).2) =
      (match w h (N ns StackType.StackTypeService [serviceName, E]) with
       | none => []
       | some _ => [N ns StackType.StackTypeService [serviceName, E]]) := by
    rw [serviceUndeployer_eq]
    cases w h (N ns StackType.StackTypeService [serviceName, E]) with
    | none => simp [emitted_append, deleteCalls]
    | some st0 =>
      cases del (h ++ [Call.AwaitFinalStatus (N ns StackType.StackTypeService [serviceName, E])])
          (N ns StackType.StackTypeService [serviceName, E]) with
      | none => simp [emitted_append, deleteCalls]
      | some e => simp [emitted_append, deleteCalls]
  refine ⟨?_, ?_, ?_, ?_, ?_, ?_⟩
  · rw [serviceUndeployer_eq]
    cases w h (N ns StackType.StackTypeService [serviceName, E]) with
    | none => simp [emitted_append]
    | some st0 =>
      cases del (h ++ [Call.AwaitFinalStatus (N ns StackType.StackTypeService [serviceName, E])])
          (N ns StackType.StackTypeService [serviceName, E]) with
      | none => simp [emitted_append]
      | some e => simp [emitted_append]
  · intro habsent
    rw [hcalls, habsent]
  · intro hpresent
    rw [hcalls]
    cases hfirst : w h (N ns StackType.StackTypeService [serviceName, E]) with
    | none => exact absurd hfirst hpresent
    | some st0 => rfl
  · constructor
    · rintro ⟨n, hn⟩ habsent
      have hmem := (mem_deleteCalls n _).2 hn
      rw [hcalls, habsent] at hmem
      simp at hmem
    · intro hpresent
      refine ⟨N ns StackType.StackTypeService [serviceName, E], ?_⟩
      rw [← mem_deleteCalls, hcalls]
      cases hfirst : w h (N ns StackType.StackTypeService [serviceName, E]) with
      | none => exact absurd hfirst hpresent
      | some st0 => simp
  · intro hpresent hd
    rw [serviceUndeployer_eq]
    cases hfirst : w h (N ns StackType.StackTypeService [serviceName, E]) with
    | none => exact absurd hfirst hpresent
    | some st0 => simp only [hd]
  · intro hpresent hpresent2 hsame
    rw [serviceUndeployer_eq, serviceUndeployer_eq]
    cases hfirst : w h (N ns StackType.StackTypeService [serviceName, E]) with
    | none => exact absurd hfirst hpresent
    | some st0 =>
      cases hfirst2 : w2 h (N ns StackType.StackTypeService [serviceName, E]) with
      | none => exact absurd hfirst2 hpresent2
      | some st2 => simp only [hsame _ _ hne]

/-- The single-service undeploy of a stack first seen in `DELETE_FAILED`: the
stack is deleted once and, the second wait finding it gone, the step returns no
error. -/
theorem undeploy_first_status_example :
    serviceUndeployer dashName "web" "mu" "dev" calmDeleter
        (fun log stackName => if log = [] then some ⟨stackName, "DELETE_FAILED", "old", []⟩
          else none) [] =
      (none, [Call.AwaitFinalStatus "mu-service-web-dev", Call.DeleteStack "mu-service-web-dev",
        Call.AwaitFinalStatus "mu-service-web-dev"]) := by
  decide

/-! ## C16: success of a scoped step does not mean that the stack is deleted -/

/-- C16. For every naming function, namespace, environment and starting log there
are a deleter and a waiter such that both `DeleteStack` calls of
`environmentVpcTerminator` return an error, both `AwaitFinalStatus` calls return
a stack in status `CREATE_COMPLETE`, and the step returns no error.  More
generally, whenever the stack `st` returned by the wait after the delete has a
`Status` of the form `p ++ "_COMPLETE"`, whatever the text `p`, the phase is a
success in every scoped step: ContainerPlatform, ServiceDiscovery, LoadBalancer,
both phases of the Network step and the single-service undeploy. -/
theorem C16_success_without_delete (N : StackNamer) (ns E serviceName : String)
    (del : StackDeleter) (w : StackWaiter) (h : List Call) (st : Stack) (p : String)
    (hst : st.Status = p ++ "_COMPLETE") :
    (∃ (del0 : StackDeleter) (w0 : StackWaiter) (e1 e2 : GoError) (st1 st2 : Stack),
      del0 h (N ns StackType.StackTypeVpc [E]) = some e1 ∧
      del0 (h ++ [Call.DeleteStack (N ns StackType.StackTypeVpc [E]),
          Call.AwaitFinalStatus (N ns StackType.StackTypeVpc [E])])
        (N ns StackType.StackTypeTarget [E]) = some e2 ∧
      w0 (h ++ [Call.DeleteStack (N ns StackType.StackTypeVpc [E])])
        (N ns StackType.StackTypeVpc [E]) = some st1 ∧
      st1.Status = "CREATE_COMPLETE" ∧
      w0 (h ++ [Call.DeleteStack (N ns StackType.StackTypeVpc [E]),
          Call.AwaitFinalStatus (N ns StackType.StackTypeVpc [E]),
          Call.DeleteStack (N ns StackType.StackTypeTarget [E])])
        (N ns StackType.StackTypeTarget [E]) = some st2 ∧
      st2.Status = "CREATE_COMPLETE" ∧
      environmentVpcTerminator N ns E del0 w0 h =
        (none, h ++ [Call.DeleteStack (N ns StackType.StackTypeVpc [E]),
          Call.AwaitFinalStatus (N ns StackType.StackTypeVpc [E]),
          Call.DeleteStack (N ns StackType.StackTypeTarget [E]),
          Call.AwaitFinalStatus (N ns StackType.StackTypeTarget [E])])) ∧
    (del h (N ns StackType.StackTypeEnv [E]) = none →
      w (h ++ [Call.DeleteStack (N ns StackType.StackTypeEnv [E])])
        (N ns StackType.StackTypeEnv [E]) = some st →
      (environmentEcsTerminator N ns E del w h).1 = none) ∧
    (del h (N ns StackType.StackTypeConsul [E]) = none →
      w (h ++ [Call.DeleteStack (N ns StackType.StackTypeConsul [E])])
        (N ns StackType.StackTypeConsul [E]) = some st →
      (environmentConsulTerminator N ns E del w h).1 = none) ∧
    (del h (N ns StackType.StackTypeLoadBalancer [E]) = none →
      w (h ++ [Call.DeleteStack (N ns StackType.StackTypeLoadBalancer [E])])
        (N ns StackType.StackTypeLoadBalancer [E]) = some st →
      (environmentElbTerminator N ns E del w h).1 = none) ∧
    (w (h ++ [Call.DeleteStack (N ns StackType.StackTypeVpc [E])])
        (N ns StackType.StackTypeVpc [E]) = some st →
      environmentVpcTerminator N ns E del w h =
        vpcTargetPhase N ns E del w (h ++ [Call.DeleteStack (N ns StackType.StackTypeVpc [E]),
          Call.AwaitFinalStatus (N ns StackType.StackTypeVpc [E])])) ∧
    (w (h ++ [Call.DeleteStack (N ns StackType.StackTypeTarget [E])])
        (N ns StackType.StackTypeTarget [E]) = some st →
      (vpcTargetPhase N ns E del w h).1 = none) ∧
    (w h (N ns StackType.StackTypeService [serviceName, E]) ≠ none →
      del (h ++ [Call.AwaitFinalStatus (N ns StackType.StackTypeService [serviceName, E])])
        (N ns StackType.StackTypeService [serviceName, E]) = none →
      w (h ++ [Call.AwaitFinalStatus (N ns StackType.StackTypeService [serviceName, E]),
          Call.DeleteStack (N ns StackType.StackTypeService [serviceName, E])])
        (N ns StackType.StackTypeService [serviceName, E]) = some st →
      (serviceUndeployer N serviceName ns E del w h).1 = none) := by
  have hok : checkStatus (some st) = none :=
    (checkStatus_classified st).1 ⟨p, hst⟩
  refine ⟨?_, ?_, ?_, ?_, ?_, ?_, ?_⟩
  · refine ⟨deniedDeleter, statusWaiter "CREATE_COMPLETE" "", ⟨"AccessDenied"⟩, ⟨"AccessDenied"⟩,
      ⟨N ns StackType.StackTypeVpc [E], "CREATE_COMPLETE", "", []⟩,
      ⟨N ns StackType.StackTypeTarget [E], "CREATE_COMPLETE", "", []⟩,
      rfl, rfl, rfl, rfl, rfl, rfl, ?_⟩
    have hc : ∀ n : String, checkStatus (some ⟨n, "CREATE_COMPLETE", "", []⟩) = none :=
      fun n => (checkStatus_classified ⟨n, "CREATE_COMPLETE", "", []⟩).1 ⟨"CREATE", rfl⟩
    rw [environmentVpcTerminator_eq]
    simp only [statusWaiter, hc, vpcTargetPhase_eq, List.append_assoc, List.cons_append,
      List.nil_append]
  · intro hd hw
    rw [environmentEcsTerminator_eq, hd]
    simp only [hw, hok]
  · intro hd hw
    rw [environmentConsulTerminator_eq, hd]
    simp only [hw, hok]
  · intro hd hw
    rw [environmentElbTerminator_eq, hd]
    simp only [hw, hok]
  · intro hw
    rw [environmentVpcTerminator_eq, hw, hok]
  · intro hw
    rw [vpcTargetPhase_eq, hw, hok]
  · intro hpresent hd hw
    rw [serviceUndeployer_eq]
    cases hfirst : w h (N ns StackType.StackTypeService [serviceName, E]) with
    | none => exact absurd hfirst hpresent
    | some st0 => simp only [hd, hw, hok]

/-- Witness of C16: every delete is denied and every wait reports the stack,
still there, in `CREATE_COMPLETE`: the Network step returns no error; and a stack
left in `UPDATE_ROLLBACK_COMPLETE` after an accepted delete passes the check of
the ContainerPlatform step. -/
theorem C16_success_without_delete_witness :
    environmentVpcTerminator dashName "mu" "dev" deniedDeleter
        (statusWaiter "CREATE_COMPLETE" "") [] =
      (none, [Call.DeleteStack "mu-vpc-dev", Call.AwaitFinalStatus "mu-vpc-dev",
        Call.DeleteStack "mu-target-dev", Call.AwaitFinalStatus "mu-target-dev"]) ∧
    (environmentEcsTerminator dashName "mu" "dev" calmDeleter
        (statusWaiter "UPDATE_ROLLBACK_COMPLETE" "") []).1 = none := by
  have hall := C16_success_without_delete dashName "mu" "dev" "web" calmDeleter
    (statusWaiter "UPDATE_ROLLBACK_COMPLETE" "") []
    ⟨"mu-environment-dev", "UPDATE_ROLLBACK_COMPLETE", "", []⟩ "UPDATE_ROLLBACK" rfl
  exact ⟨by decide, hall.2.1 rfl rfl⟩

end Mu
